import Mathlib

/-!
Verification of the chart-generation service in `app.py`.

The development shallowly embeds the request-handling core of the service:
the style resolver, the Python-path code rewriter (`execute_python_code`,
lines 61-206), the R-path command construction and error-message derivation
(`execute_r_code`, lines 208-303), and the language dispatch of
`generate_chart` (lines 307-330).

Texts are embedded as `List Char`.  Python string primitives used by the
source (`str.lower`, `str.strip`, `str.split`, `in`, `str.replace`,
`str.startswith`) are given direct executable models below; `str.lower` is
modelled on the ASCII range, which is where Python's `lower` and this model
agree (all choice strings and keywords handled by the source are ASCII).
Scanners that jump by the pattern length (`str.replace`, occurrence
counting, `re.sub`) are defined structurally with a fuel argument so that
they compute by kernel reduction; the fuel is always instantiated with the
text length, which the fuel-irrelevance lemmas show is enough.
-/

/-! ### Basic Python string primitives -/

/-- Python `str.lower` on one ASCII character. -/
def lowCh (c : Char) : Char :=
  if 65 ≤ c.toNat ∧ c.toNat ≤ 90 then Char.ofNat (c.toNat + 32) else c

/-- Python `str.lower` (ASCII fragment). -/
def lowStr (s : List Char) : List Char := s.map lowCh

/-- The characters Python `str.strip` removes and `\s` in `re` matches:
space, tab, newline, carriage return, vertical tab, form feed. -/
def isWsCh (c : Char) : Bool :=
  c = ' ' ∨ c = '\t' ∨ c = '\n' ∨ c = '\r' ∨ c = '\x0b' ∨ c = '\x0c'

/-- Python `str.strip()`: remove whitespace from both ends. -/
def stripL (s : List Char) : List Char :=
  ((s.dropWhile isWsCh).reverse.dropWhile isWsCh).reverse

/-- Python `str.split('\n')`. -/
def splitNl : List Char → List (List Char)
  | [] => [[]]
  | c :: rest =>
    match splitNl rest with
    | [] => [[c]]
    | h :: t => if c = '\n' then [] :: h :: t else (c :: h) :: t

/-- Python `pat in s` (substring containment). -/
def containsSub (pat : List Char) : List Char → Bool
  | [] => pat.isEmpty
  | c :: rest => pat.isPrefixOf (c :: rest) || containsSub pat rest

/-- Number of leftmost non-overlapping occurrences of `pat`
(the occurrences Python `str.replace` rewrites); fueled worker. -/
def countOccAux (pat : List Char) : Nat → List Char → Nat
  | 0, _ => 0
  | _, [] => 0
  | fuel + 1, c :: rest =>
    if pat.isPrefixOf (c :: rest) ∧ pat ≠ [] then
      1 + countOccAux pat fuel (List.drop (pat.length - 1) rest)
    else
      countOccAux pat fuel rest

/-- Number of leftmost non-overlapping occurrences of `pat` in a text. -/
def countOcc (pat : List Char) (l : List Char) : Nat := countOccAux pat l.length l

/-- Python `s.replace(pat, rep)` (all leftmost non-overlapping
occurrences); fueled worker. -/
def replaceAllAux (pat rep : List Char) : Nat → List Char → List Char
  | 0, l => l
  | _, [] => []
  | fuel + 1, c :: rest =>
    if pat.isPrefixOf (c :: rest) ∧ pat ≠ [] then
      rep ++ replaceAllAux pat rep fuel (List.drop (pat.length - 1) rest)
    else
      c :: replaceAllAux pat rep fuel rest

/-- Python `s.replace(pat, rep)`. -/
def replaceAll (pat rep : List Char) (l : List Char) : List Char :=
  replaceAllAux pat rep l.length l

/-! ### Style resolver (`map_image_bg` / `map_chart_bg`, app.py lines 73-104)

`None` in the result models the Python `None` returned for a transparent
background; a `some` result is a concrete color string. -/

/-- `map_image_bg` (app.py lines 73-83): falsy choices fall back to
`'default'`, matching is on the lowercased choice, unknown choices fall
back to the default dark figure color. -/
def mapImageBg (choice : Option (List Char)) : Option (List Char) :=
  let c := match choice with
    | none => "default".toList
    | some s => if s = [] then "default".toList else s
  let cl := lowStr c
  if cl = "transparent".toList then none
  else if cl = "white".toList then some "#f3f3f3".toList
  else if cl = "blue".toList then some "#0b1220".toList
  else if cl = "default".toList then some "#0a0a0a".toList
  else some "#0a0a0a".toList

/-- `map_chart_bg` (app.py lines 85-101). -/
def mapChartBg (choice : Option (List Char)) : Option (List Char) :=
  let c := match choice with
    | none => "default".toList
    | some s => if s = [] then "default".toList else s
  let cl := lowStr c
  if cl = "transparent".toList then none
  else if cl = "white".toList then some "#ffffff".toList
  else if cl = "blue".toList then some "#8ac0db".toList
  else if cl = "green".toList then some "#8adba5".toList
  else if cl = "yellow".toList then some "#fee14e".toList
  else if cl = "orange".toList then some "#fd732d".toList
  else if cl = "purple".toList then some "#ce8adb".toList
  else if cl = "teal".toList then some "#76d3cf".toList
  else if cl = "default".toList then some "#111827".toList
  else some "#111827".toList

/-- `panel_bg = map_chart_bg(chart_bg_choice) if chart_bg_choice is not
None else None` (app.py line 104). -/
def panelBgOf (chartBg : Option (List Char)) : Option (List Char) :=
  match chartBg with
  | none => none
  | some c => mapChartBg (some c)

/-- The resolved style a request's two background choices determine:
the figure (outer image) color and the panel (axes) color, each `none`
when transparent / unset. -/
structure ResolvedStyle where
  figureColor : Option (List Char)
  panelColor : Option (List Char)
deriving DecidableEq, Repr

/-- Resolution of the two background choices (app.py lines 103-104). -/
def resolveStyle (imgBg chartBg : Option (List Char)) : ResolvedStyle :=
  ⟨mapImageBg imgBg, panelBgOf chartBg⟩

/-! ### The save/style replacement snippet (app.py lines 106-147) -/

/-- Python `str(...)` of an optional color as interpolated by the
f-string: `None` prints as `"None"`. -/
def optPyStr : Option (List Char) → List Char
  | none => "None".toList
  | some s => s

/-- `panel_injection` in the `img_bg_choice == 'transparent'` branch
(app.py lines 108-115). -/
def panelInjTransparent (panelBg : Option (List Char)) : List Char :=
  match panelBg with
  | none => []
  | some pb =>
    "# Apply chart panel background if requested and not transparent\ntry:\n    fig = plt.gcf()\n    for ax in fig.get_axes():\n        ax.set_facecolor('".toList
      ++ pb ++ "')\nexcept Exception:\n    pass\n".toList

/-- `panel_injection` in the other branch (app.py lines 133-140). -/
def panelInjOpaque (panelBg : Option (List Char)) : List Char :=
  match panelBg with
  | none => []
  | some pb =>
    "# Apply chart panel background if requested\ntry:\n    fig = plt.gcf()\n    for ax in fig.get_axes():\n        ax.set_facecolor('".toList
      ++ pb ++ "')\nexcept Exception:\n    pass\n".toList

/-- `save_repl` (app.py lines 106-147).  Note the branch condition is the
exact, case-sensitive comparison `img_bg_choice == 'transparent'`. -/
def saveRepl (imgBg chartBg : Option (List Char)) : List Char :=
  let figureBg := mapImageBg imgBg
  let panelBg := panelBgOf chartBg
  if imgBg = some "transparent".toList then
    "fig = plt.gcf()\n# Make outer figure transparent while keeping axes opaque\ntry:\n    fig.patch.set_alpha(0.0)\nexcept Exception:\n    pass\nfor ax in fig.get_axes():\n    try:\n        fc = ax.get_facecolor()\n        if isinstance(fc, tuple) and len(fc) == 4:\n            ax.set_facecolor((fc[0], fc[1], fc[2], 1.0))\n    except Exception:\n        pass\n".toList
      ++ panelInjTransparent panelBg
      ++ "plt.savefig(img_buffer, format=\"png\", bbox_inches=\"tight\", dpi=150, facecolor=(0,0,0,0), edgecolor=\"none\", transparent=False)\nplt.close()".toList
  else
    "fig = plt.gcf()\ntry:\n    fig.patch.set_facecolor('".toList
      ++ optPyStr figureBg
      ++ "')\nexcept Exception:\n    pass\n".toList
      ++ panelInjOpaque panelBg
      ++ "plt.savefig(img_buffer, format=\"png\", bbox_inches=\"tight\", dpi=150, facecolor=fig.get_facecolor(), edgecolor=\"none\", transparent=False)\nplt.close()".toList

/-- `SHOW_SENTINEL = 'plt.show()'` (app.py line 149). -/
def showSentinel : List Char := "plt.show()".toList

/-- `code if code is not None else ''` (app.py line 150). -/
def codeOrEmpty : Option (List Char) → List Char
  | some c => c
  | none => []

/-- The show-sentinel rewrite (app.py lines 149-154): replace every
occurrence of `plt.show()` by `save_repl`, or append the save sequence
when the sentinel is absent. -/
def rewriteShow (code : List Char) (imgBg chartBg : Option (List Char)) : List Char :=
  let sr := saveRepl imgBg chartBg
  if containsSub showSentinel code then
    replaceAll showSentinel sr code
  else
    code ++ "\n\n# Auto-added save (no plt.show() detected)\n".toList ++ sr ++ "\n".toList

/-! ### CSV serialization (`csv.DictWriter`, app.py lines 159-165)

A row-mapping is an association list from column names to cell values
(the insertion-ordered keys of the Python dict). -/

/-- One tabular row: column name / cell value pairs. -/
abbrev PyRow : Type := List (List Char × List Char)

/-- QUOTE_MINIMAL: a field is quoted when it contains the delimiter, the
quote character, or a line-terminator character. -/
def csvNeedsQuote (f : List Char) : Bool :=
  f.any (fun c => c = ',' ∨ c = '"' ∨ c = '\r' ∨ c = '\n')

/-- `csv` module field serialization: double embedded quote characters and
wrap in quotes when needed. -/
def csvQuoteField (f : List Char) : List Char :=
  if csvNeedsQuote f then
    '"' :: (f.flatMap fun c => if c = '"' then ['"', '"'] else [c]) ++ ['"']
  else f

/-- Comma-join of the serialized fields of one record. -/
def joinCells : List (List Char) → List Char
  | [] => []
  | [x] => x
  | x :: y :: rest => x ++ ',' :: joinCells (y :: rest)

/-- One CSV record: comma-joined quoted fields plus the default `\r\n`
line terminator of `csv.writer`. -/
def csvRecord (cells : List (List Char)) : List Char :=
  joinCells (cells.map csvQuoteField) ++ "\r\n".toList

/-- `DictWriter` cell selection: the row's value for a field name, the
empty default when the key is missing. -/
def rowCells (fieldnames : List (List Char)) (r : PyRow) : List (List Char) :=
  fieldnames.map fun k => (List.lookup k r).getD []

/--
`csv.DictWriter(output, fieldnames=csv_data[0].keys())` followed by
`writeheader()` and `writerows(csv_data)` (app.py lines 161-165); an empty
row list yields the empty text (in the source the whole writer block is
guarded by `len(csv_data) > 0`, so nothing is ever written for it).
-/
def csvSerialize (rows : List PyRow) : List Char :=
  match rows with
  | [] => []
  | r0 :: _ =>
    let fieldnames := r0.map Prod.fst
    csvRecord fieldnames ++ (rows.map fun r => csvRecord (rowCells fieldnames r)).flatten

/-! ### The `pd.read_csv` pattern (app.py lines 157-167)

The source substitutes with
`re.sub(r"pd\.read_csv\s*\(\s*['\"][^'\"]*['\"](?:\s*,\s*[^)]*)??\s*\)", ...)`.
The matcher below is that regular expression specialized at one start
position.  Each quantified piece is deterministic here: `[^'\"]*` is a
maximal run whose only viable end is the next quote, the lazy optional
group is tried empty first and taken only when the following character
after `\s*` is a comma, and `[^)]*` is a maximal run that must be closed
by `)`. -/

/-- `c` is one of the two regex quote characters `['\"]`. -/
def isQuoteCh (c : Char) : Bool := c = '\'' ∨ c = '"'

/-- Match a literal piece of the pattern, returning the remainder. -/
def expectLit (pat l : List Char) : Option (List Char) :=
  if pat.isPrefixOf l then some (l.drop pat.length) else none

/-- Match one exact character. -/
def expectCh (c : Char) : List Char → Option (List Char)
  | x :: r => if x = c then some r else none
  | [] => none

/-- Match one quote character (`['\"]`). -/
def expectQuote : List Char → Option (List Char)
  | x :: r => if isQuoteCh x then some r else none
  | [] => none

/-- Attempt the `pd.read_csv(...)` pattern at the head of `l`; on success
return the text after the match. -/
def matchRest (l : List Char) : Option (List Char) :=
  (expectLit "pd.read_csv".toList l).bind fun r1 =>
  (expectCh '(' (r1.dropWhile isWsCh)).bind fun r3 =>
  (expectQuote (r3.dropWhile isWsCh)).bind fun r5 =>
  (expectQuote (r5.dropWhile fun c => !isQuoteCh c)).bind fun r7 =>
  match r7.dropWhile isWsCh with
  | [] => none
  | c8 :: r9 =>
    if c8 = ')' then some r9
    else if c8 = ',' then
      match ((r9.dropWhile isWsCh).dropWhile fun c => c ≠ ')') with
      | [] => none
      | c10 :: r11 => if c10 = ')' then some r11 else none
    else none

/-- `re.sub` with this pattern: scan left to right, replace each leftmost
non-overlapping match, never rescanning replacement text; fueled worker. -/
def reSubAux (sub : List Char) : Nat → List Char → List Char
  | 0, l => l
  | _, [] => []
  | fuel + 1, c :: rest =>
    match matchRest (c :: rest) with
    | some rem => sub ++ reSubAux sub fuel rem
    | none => c :: reSubAux sub fuel rest

/-- `re.sub(pd_read_csv_pattern, sub, text)`. -/
def reSub (sub l : List Char) : List Char := reSubAux sub l.length l

/-- Whether the text contains a match of the `pd.read_csv(...)` pattern
anywhere, i.e. still references a quoted (named-file) data load. -/
def hasMatch : List Char → Bool
  | [] => false
  | c :: rest => (matchRest (c :: rest)).isSome || hasMatch rest

/-- The in-memory replacement call
`'pd.read_csv(io.StringIO(csv_data_string))'` (app.py line 166). -/
def csvRepl : List Char := "pd.read_csv(io.StringIO(csv_data_string))".toList

/-! ### Placement of the data literal (app.py lines 168-179) -/

/-- `s.startswith('import ') or s.startswith('from ')` on the stripped
line (app.py line 174). -/
def importishLine (l : List Char) : Bool :=
  "import ".toList.isPrefixOf (stripL l) || "from ".toList.isPrefixOf (stripL l)

/-- `elif s and not s.startswith('#')` — the loop's break condition for a
non-import line (app.py line 176). -/
def breakLine (l : List Char) : Bool :=
  !(stripL l).isEmpty && !("#".toList.isPrefixOf (stripL l))

/-- A line the `insert_index` loop walks over without updating the index
or stopping: neither an import/from line nor a breaking code line, so a
blank line or a comment. -/
def neutralLine (l : List Char) : Bool :=
  !(importishLine l) && !(breakLine l)

/-- The `insert_index` loop (app.py lines 171-177): `i` is the enumerate
counter, `acc` the current `insert_index`. -/
def insertIdxGo (i acc : Nat) : List (List Char) → Nat
  | [] => acc
  | l :: rest =>
    if importishLine l then insertIdxGo (i + 1) (i + 1) rest
    else if breakLine l then acc
    else insertIdxGo (i + 1) acc rest

/-- The computed `insert_index`. -/
def insertIdx (ls : List (List Char)) : Nat := insertIdxGo 0 0 ls

/-- Python `list.insert(n, x)`. -/
def insertAt (n : Nat) (x : List Char) (ls : List (List Char)) : List (List Char) :=
  ls.take n ++ x :: ls.drop n

/-- The `'import io'` line prepended by the injector. -/
def importIoLine : List Char := "import io".toList

/-- `f'csv_data_string = """{csv_data_string}"""'` (app.py line 178). -/
def csvVarLine (rows : List PyRow) : List Char :=
  "csv_data_string = \"\"\"".toList ++ csvSerialize rows ++ "\"\"\"".toList

/-- The whole data-injection step (app.py lines 156-179): substitute the
`pd.read_csv` calls, deduplicate and prepend `import io`, then insert the
data literal at `insert_index` and rejoin the lines. -/
def injectCsv (m : List Char) (rows : List PyRow) : List Char :=
  let m1 := reSub csvRepl m
  let ls := (splitNl m1).filter fun l => !(stripL l == importIoLine)
  let ls := importIoLine :: ls
  List.intercalate "\n".toList (insertAt (insertIdx ls) (csvVarLine rows) ls)

/-- The full Python-path rewrite (app.py lines 106-179): the show-sentinel
rewrite followed, when tabular data is supplied and truthy, by the CSV
injection. -/
def pyRewrite (code : Option (List Char)) (csvData : Option (List PyRow))
    (imgBg chartBg : Option (List Char)) : List Char :=
  let m := rewriteShow (codeOrEmpty code) imgBg chartBg
  match csvData with
  | some rows => if rows = [] then m else injectCsv m rows
  | none => m

/-! ### Post-execution fallback (app.py lines 196-203) -/

/-- A figure synthesized in memory, identified by the text drawn on it. -/
structure SynthImage where
  text : List Char
deriving DecidableEq

/-- The fallback figure `fig.text(0.5, 0.5, 'No plot generated', ...)`
(app.py line 198). -/
def noPlotFigure : SynthImage := ⟨"No plot generated".toList⟩

/-- After executing the rewritten program: if the byte sink received
nothing, render the fallback figure into it, then return the sink
(app.py lines 196-203).  `render` is the plotting library's PNG encoder,
an external collaborator. -/
def finalizeBuffer (render : SynthImage → List Nat) (sink : List Nat) : List Nat :=
  if sink.isEmpty then render noPlotFigure else sink

/-! ### R path: error-message derivation (app.py lines 264-297) -/

/-- The relevance filter of app.py line 272, with Python's operator
precedence kept exactly:
`(line.strip() and not line.startswith('Execution halted') and
'Error' in line) or ('error' in line.lower())`. -/
def relevantLine (l : List Char) : Bool :=
  (!(stripL l).isEmpty && !("Execution halted".toList.isPrefixOf l)
      && containsSub "Error".toList l)
    || containsSub "error".toList (lowStr l)

/-- `error_lines = stderr.split('\n') if stderr else []` on the stripped
stream (app.py lines 266-270). -/
def errLinesOf (stderrRaw : List Char) : List (List Char) :=
  if (stripL stderrRaw).isEmpty then [] else splitNl (stripL stderrRaw)

/-- The error text before the 300-character cap (app.py lines 266-281). -/
def cleanErrorPre (stderrRaw : List Char) : List Char :=
  let stderr := stripL stderrRaw
  let errorLines := errLinesOf stderrRaw
  match errorLines.filter relevantLine with
  | e :: _ => stripL e
  | [] =>
    if stderr.isEmpty then
      "R script execution failed".toList
    else
      match errorLines with
      | l :: _ => (stripL l).take 200
      | [] => "Unknown R error".toList

/-- The 300-character cap with the `...` marker (app.py lines 284-285). -/
def truncate300 (s : List Char) : List Char :=
  if 300 < s.length then s.take 300 ++ "...".toList else s

/-- `clean_error` as selected and capped (app.py lines 266-285). -/
def cleanErrorMsg (stderrRaw : List Char) : List Char :=
  truncate300 (cleanErrorPre stderrRaw)

/-- The full raised message (app.py lines 287-295): missing-output note,
ggplot2 guidance, and the `R execution error: ` prefix. -/
def rErrorMessage (stderrRaw : List Char) (outFileExists : Bool) : List Char :=
  let ce := cleanErrorMsg stderrRaw
  let ce := if outFileExists then ce else ce ++ " (no output image generated)".toList
  let ce :=
    if containsSub "there is no package called".toList (lowStr ce)
        && containsSub "ggplot2".toList (lowStr ce) then
      ce ++ " - ggplot2 isn't available in the runtime. If running locally, install R and ggplot2. If on Heroku with Docker, ensure the Docker image installs ggplot2 and redeploy.".toList
    else ce
  "R execution error: ".toList ++ ce

/-- Outcome of the R path once the subprocess has completed. -/
inductive RRunResult where
  | ok : RRunResult
  | err : List Char → RRunResult
deriving DecidableEq

/-- The success test of app.py line 264:
`if result.returncode != 0 or not os.path.exists(output_plot_file)`. -/
def rOutcome (returncode : Int) (outFileExists : Bool) (stderrRaw : List Char) : RRunResult :=
  if returncode ≠ 0 ∨ outFileExists = false then
    .err (rErrorMessage stderrRaw outFileExists)
  else
    .ok

/-! ### R path: command construction (app.py lines 235-251) -/

/-- The renderer invocation (app.py lines 235-251): base command then the
optional positional arguments, each appended only when its value is
truthy (for the grid flag: not `None`). -/
def buildRCommand (runner srcFile outFile dataFile : List Char)
    (csvData : Option (List PyRow)) (imgBg chartBg : Option (List Char))
    (showGrid : Option Bool) : List (List Char) :=
  let cmd := ["Rscript".toList, "--vanilla".toList, runner, srcFile, outFile]
  let cmd := cmd ++ (match csvData with
    | some rows => if rows = [] then [] else [dataFile]
    | none => [])
  let cmd := cmd ++ (match imgBg with
    | some s => if s = [] then [] else [s]
    | none => [])
  let cmd := cmd ++ (match chartBg with
    | some s => if s = [] then [] else [s]
    | none => [])
  cmd ++ (match showGrid with
    | some b => [if b then "true".toList else "false".toList]
    | none => [])

/-- `timeout=90` on the `subprocess.run` call (app.py line 259). -/
def rSubprocessTimeout : Nat := 90

/-! ### Request handler dispatch (app.py lines 319-330) -/

/-- What `generate_chart` decides to do with a request's language tag. -/
inductive RouteOutcome where
  | runPython : RouteOutcome
  | runR : RouteOutcome
  | clientError : Nat → List Char → RouteOutcome
deriving DecidableEq

/-- The dispatch of app.py lines 320-325: `language == 'python'`,
`language == 'r'`, otherwise a 400 response and no adapter call. -/
def routeChart (language : Option (List Char)) : RouteOutcome :=
  if language = some "python".toList then .runPython
  else if language = some "r".toList then .runR
  else .clientError 400 "Invalid language specified".toList

/-- The first diagnostic line the spec says the failure path should
prefer: the first line containing the (case-insensitive) error keyword
that is not the generic halt banner.  This follows the spec's words and
is compared against the source's filter. -/
def specPreferredLine (ls : List (List Char)) : Option (List Char) :=
  ls.find? fun l =>
    containsSub "error".toList (lowStr l) && !(l == "Execution halted".toList)

/-! ### Lemmas: occurrence counting and replacement -/

theorem countOccAux_nil (pat : List Char) (f : Nat) : countOccAux pat f [] = 0 := by
  cases f <;> rfl

theorem replaceAllAux_nil (pat rep : List Char) (f : Nat) :
    replaceAllAux pat rep f [] = [] := by
  cases f <;> rfl

theorem countOccAux_fuel (pat : List Char) :
    ∀ (f1 f2 : Nat) (l : List Char), l.length ≤ f1 → l.length ≤ f2 →
      countOccAux pat f1 l = countOccAux pat f2 l := by
  intro f1
  induction f1 with
  | zero =>
    intro f2 l h1 _
    have : l = [] := List.length_eq_zero.mp (Nat.le_zero.mp h1)
    subst this
    rw [countOccAux_nil, countOccAux_nil]
  | succ f ih =>
    intro f2 l h1 h2
    cases l with
    | nil => rw [countOccAux_nil, countOccAux_nil]
    | cons c rest =>
      cases f2 with
      | zero => simp at h2
      | succ g =>
        simp only [countOccAux]
        split
        · have hd : (List.drop (pat.length - 1) rest).length ≤ rest.length := by
            simp [List.length_drop]
          simp only [List.length_cons] at h1 h2
          rw [ih g _ (by omega) (by omega)]
        · simp only [List.length_cons] at h1 h2
          rw [ih g rest (by omega) (by omega)]

theorem replaceAllAux_fuel (pat rep : List Char) :
    ∀ (f1 f2 : Nat) (l : List Char), l.length ≤ f1 → l.length ≤ f2 →
      replaceAllAux pat rep f1 l = replaceAllAux pat rep f2 l := by
  intro f1
  induction f1 with
  | zero =>
    intro f2 l h1 _
    have : l = [] := List.length_eq_zero.mp (Nat.le_zero.mp h1)
    subst this
    rw [replaceAllAux_nil, replaceAllAux_nil]
  | succ f ih =>
    intro f2 l h1 h2
    cases l with
    | nil => rw [replaceAllAux_nil, replaceAllAux_nil]
    | cons c rest =>
      cases f2 with
      | zero => simp at h2
      | succ g =>
        simp only [replaceAllAux]
        split
        · have hd : (List.drop (pat.length - 1) rest).length ≤ rest.length := by
            simp [List.length_drop]
          simp only [List.length_cons] at h1 h2
          rw [ih g _ (by omega) (by omega)]
        · simp only [List.length_cons] at h1 h2
          rw [ih g rest (by omega) (by omega)]

theorem countOcc_nil (pat : List Char) : countOcc pat [] = 0 := rfl

theorem countOcc_cons (pat : List Char) (c : Char) (rest : List Char) :
    countOcc pat (c :: rest) =
      if pat.isPrefixOf (c :: rest) ∧ pat ≠ [] then
        1 + countOcc pat (List.drop (pat.length - 1) rest)
      else countOcc pat rest := by
  show countOccAux pat (rest.length + 1) (c :: rest) = _
  simp only [countOccAux]
  split
  · have hd : (List.drop (pat.length - 1) rest).length ≤ rest.length := by
      simp [List.length_drop]
    unfold countOcc
    congr 1
    exact countOccAux_fuel pat rest.length _ _ (by omega) (le_refl _)
  · rfl

theorem replaceAll_cons (pat rep : List Char) (c : Char) (rest : List Char) :
    replaceAll pat rep (c :: rest) =
      if pat.isPrefixOf (c :: rest) ∧ pat ≠ [] then
        rep ++ replaceAll pat rep (List.drop (pat.length - 1) rest)
      else c :: replaceAll pat rep rest := by
  show replaceAllAux pat rep (rest.length + 1) (c :: rest) = _
  simp only [replaceAllAux]
  split
  · have hd : (List.drop (pat.length - 1) rest).length ≤ rest.length := by
      simp [List.length_drop]
    unfold replaceAll
    congr 1
    exact replaceAllAux_fuel pat rep rest.length _ _ (by omega) (le_refl _)
  · unfold replaceAll
    rfl

theorem containsSub_eq_false_of_countOcc_zero (pat : List Char) (hp : pat ≠ []) :
    ∀ l, countOcc pat l = 0 → containsSub pat l = false := by
  intro l
  induction l with
  | nil =>
    intro _
    simpa [containsSub, List.isEmpty_iff] using hp
  | cons c rest ih =>
    intro h
    rw [countOcc_cons] at h
    by_cases hpre : pat.isPrefixOf (c :: rest) = true
    · rw [if_pos ⟨hpre, hp⟩] at h
      omega
    · rw [if_neg (fun hc => hpre hc.1)] at h
      simp only [containsSub, Bool.or_eq_false_iff]
      exact ⟨Bool.eq_false_iff.mpr hpre, ih h⟩

theorem replaceAll_of_countOcc_zero (pat rep : List Char) (hp : pat ≠ []) :
    ∀ l, countOcc pat l = 0 → replaceAll pat rep l = l := by
  intro l
  induction l with
  | nil => intro _; rfl
  | cons c rest ih =>
    intro h
    rw [countOcc_cons] at h
    rw [replaceAll_cons]
    by_cases hpre : pat.isPrefixOf (c :: rest) = true
    · rw [if_pos ⟨hpre, hp⟩] at h
      omega
    · rw [if_neg (fun hc => hpre hc.1)] at h ⊢
      rw [ih h]

theorem containsSub_append_mid (pat : List Char) (hp : pat ≠ []) :
    ∀ p s, containsSub pat (p ++ pat ++ s) = true := by
  intro p
  induction p with
  | nil =>
    intro s
    obtain ⟨x, pr, rfl⟩ : ∃ x pr, pat = x :: pr := by
      cases pat with
      | nil => exact absurd rfl hp
      | cons x pr => exact ⟨x, pr, rfl⟩
    simp only [List.nil_append, List.cons_append, containsSub]
    have : (x :: pr).isPrefixOf (x :: (pr ++ s)) = true :=
      List.isPrefixOf_iff_prefix.mpr ⟨s, by simp⟩
    simp [this]
  | cons d p' ih =>
    intro s
    simp only [List.cons_append, containsSub, List.append_eq]
    rw [ih s]
    simp

theorem countOcc_one_decomp (pat rep : List Char) (hp : pat ≠ []) :
    ∀ (n : Nat) (l : List Char), l.length = n → countOcc pat l = 1 →
      ∃ p s, l = p ++ pat ++ s ∧ containsSub pat p = false ∧ countOcc pat s = 0 ∧
        replaceAll pat rep l = p ++ rep ++ s := by
  intro n
  induction n using Nat.strong_induction_on with
  | _ n ih =>
    intro l hn h1
    cases l with
    | nil => rw [countOcc_nil] at h1; omega
    | cons c rest =>
      rw [countOcc_cons] at h1
      by_cases hpre : pat.isPrefixOf (c :: rest) = true
      · rw [if_pos ⟨hpre, hp⟩] at h1
        have h0 : countOcc pat (List.drop (pat.length - 1) rest) = 0 := by omega
        obtain ⟨t, ht⟩ := List.isPrefixOf_iff_prefix.mp hpre
        obtain ⟨k, hk⟩ : ∃ k, pat.length = k + 1 := by
          cases pat with
          | nil => exact absurd rfl hp
          | cons x pr => exact ⟨pr.length, by simp⟩
        have hdrop : List.drop (pat.length - 1) rest = t := by
          have h2 : List.drop pat.length (pat ++ t) = t := List.drop_left pat t
          rw [ht] at h2
          rw [hk, List.drop_succ_cons] at h2
          rw [hk]
          simpa using h2
        refine ⟨[], t, by simp [← ht], ?_, by rw [← hdrop]; exact h0, ?_⟩
        · simpa [containsSub, List.isEmpty_iff] using hp
        · rw [replaceAll_cons, if_pos ⟨hpre, hp⟩, hdrop,
            replaceAll_of_countOcc_zero pat rep hp t (hdrop ▸ h0)]
          simp
      · rw [if_neg (fun hc => hpre hc.1)] at h1
        obtain ⟨p, s, hls, hcp, hcs, hra⟩ :=
          ih rest.length (by simp only [List.length_cons] at hn; omega) rest rfl h1
        refine ⟨c :: p, s, by simp [hls], ?_, hcs, ?_⟩
        · have hnp : pat.isPrefixOf (c :: p) = false := by
            rw [Bool.eq_false_iff]
            intro habs
            apply hpre
            apply List.isPrefixOf_iff_prefix.mpr
            have h3 : (c :: p) <+: (c :: rest) := by
              refine ⟨pat ++ s, ?_⟩
              simp [hls]
            exact (List.isPrefixOf_iff_prefix.mp habs).trans h3
          simp only [containsSub, Bool.or_eq_false_iff]
          exact ⟨hnp, hcp⟩
        · rw [replaceAll_cons, if_neg (fun hc => hpre hc.1), hra]
          simp

/-! ### Lemmas: case-insensitivity of the style lookup -/

theorem lowCh_idem (c : Char) : lowCh (lowCh c) = lowCh c := by
  by_cases h : 65 ≤ c.toNat ∧ c.toNat ≤ 90
  · have hv : (Char.ofNat (c.toNat + 32)).toNat = c.toNat + 32 := by
      obtain ⟨h1, h2⟩ := h
      set n := c.toNat with hn
      interval_cases n <;> decide
    unfold lowCh
    rw [if_pos h, if_neg (by rw [hv]; omega)]
  · unfold lowCh
    rw [if_neg h, if_neg h]

theorem lowStr_idem (s : List Char) : lowStr (lowStr s) = lowStr s := by
  induction s with
  | nil => rfl
  | cons c rest ih =>
    simp only [lowStr, List.map_cons] at ih ⊢
    rw [lowCh_idem, ih]

theorem lowStr_ne_nil (s : List Char) (h : s ≠ []) : lowStr s ≠ [] := by
  simpa [lowStr] using h

theorem mapImageBg_low (c : List Char) :
    mapImageBg (some (lowStr c)) = mapImageBg (some c) := by
  by_cases hc : c = []
  · subst hc; rfl
  · simp only [mapImageBg, if_neg hc, if_neg (lowStr_ne_nil c hc), lowStr_idem]

theorem mapChartBg_low (c : List Char) :
    mapChartBg (some (lowStr c)) = mapChartBg (some c) := by
  by_cases hc : c = []
  · subst hc; rfl
  · simp only [mapChartBg, if_neg hc, if_neg (lowStr_ne_nil c hc), lowStr_idem]

theorem saveRepl_low (c : List Char) (chart : Option (List Char))
    (h : lowStr c ≠ "transparent".toList) :
    saveRepl (some c) chart = saveRepl (some (lowStr c)) chart := by
  have hc : c ≠ "transparent".toList := by
    intro hc
    exact h (by rw [hc]; decide)
  simp only [saveRepl, Option.some.injEq, if_neg hc, if_neg h, mapImageBg_low]

/-! ### Claim theorems: C1, C5, C6, C8 -/

/--
Claim C1: in the embedded-path rewrite the literal `plt.show()` is matched
exactly.  A source text with exactly one occurrence has that occurrence
replaced by the save-to-sink sequence exactly once (the text decomposes
around the single occurrence and the result substitutes `save_repl` right
there); a text with zero occurrences is left unchanged by the replacement
step and instead gets the save-to-sink sequence appended at the end.
-/
theorem claim_C1 (code : List Char) (imgBg chartBg : Option (List Char)) :
    (countOcc showSentinel code = 1 →
      ∃ p s, code = p ++ showSentinel ++ s ∧ containsSub showSentinel p = false ∧
        countOcc showSentinel s = 0 ∧
        rewriteShow code imgBg chartBg = p ++ saveRepl imgBg chartBg ++ s) ∧
    (countOcc showSentinel code = 0 →
      rewriteShow code imgBg chartBg =
        code ++ "\n\n# Auto-added save (no plt.show() detected)\n".toList
          ++ saveRepl imgBg chartBg ++ "\n".toList) := by
  have hp : showSentinel ≠ [] := by decide
  constructor
  · intro h1
    obtain ⟨p, s, hls, hcp, hcs, hra⟩ :=
      countOcc_one_decomp showSentinel (saveRepl imgBg chartBg) hp code.length code rfl h1
    refine ⟨p, s, hls, hcp, hcs, ?_⟩
    unfold rewriteShow
    have hcon : containsSub showSentinel code = true := by
      rw [hls]
      exact containsSub_append_mid showSentinel hp p s
    simp only [hcon, if_true]
    exact hra
  · intro h0
    unfold rewriteShow
    simp only [containsSub_eq_false_of_countOcc_zero showSentinel hp code h0,
      Bool.false_eq_true, if_false]

/-- Witness for C1 at a concrete snippet with exactly one `plt.show()`. -/
theorem claim_C1_witness :
    ∃ p s, "plt.plot(x)\nplt.show()\n".toList = p ++ showSentinel ++ s ∧
      containsSub showSentinel p = false ∧ countOcc showSentinel s = 0 ∧
      rewriteShow "plt.plot(x)\nplt.show()\n".toList none none =
        p ++ saveRepl none none ++ s :=
  (claim_C1 "plt.plot(x)\nplt.show()\n".toList none none).1 (by decide)

/--
Claim C5 counterexample: an absent chart-background choice does not fall
back to the documented default chart color `#111827`: the source resolves
the panel to the unset value (`None`) when the choice is absent, because
`map_chart_bg` is bypassed entirely for a `None` choice (app.py line 104).
-/
theorem claim_C5_counterexample :
    (resolveStyle none none).panelColor = none ∧
    (none : Option (List Char)) ≠ some "#111827".toList := by
  constructor
  · rfl
  · intro h
    cases h

/--
Claim C5 (amended): style resolution is total and never errors; an
unrecognized choice falls back to the documented default color, an absent
image-background choice falls back to the default figure color, while an
absent chart-background choice resolves the panel to the unset value
(never to an error or an undefined value); every enumerated tag maps to
its defined color.
-/
theorem claim_C5_amended :
    mapImageBg none = some "#0a0a0a".toList ∧
    panelBgOf none = none ∧
    (∀ s, lowStr s ∉ ["transparent".toList, "white".toList, "blue".toList,
        "default".toList] →
      mapImageBg (some s) = some "#0a0a0a".toList) ∧
    (∀ s, lowStr s ∉ ["transparent".toList, "white".toList, "blue".toList,
        "green".toList, "yellow".toList, "orange".toList, "purple".toList,
        "teal".toList, "default".toList] →
      panelBgOf (some s) = some "#111827".toList) ∧
    (∀ i c, resolveStyle i c = ⟨mapImageBg i, panelBgOf c⟩) ∧
    mapImageBg (some "transparent".toList) = none ∧
    mapImageBg (some "white".toList) = some "#f3f3f3".toList ∧
    mapImageBg (some "blue".toList) = some "#0b1220".toList ∧
    mapImageBg (some "default".toList) = some "#0a0a0a".toList ∧
    panelBgOf (some "transparent".toList) = none ∧
    panelBgOf (some "white".toList) = some "#ffffff".toList ∧
    panelBgOf (some "blue".toList) = some "#8ac0db".toList ∧
    panelBgOf (some "green".toList) = some "#8adba5".toList ∧
    panelBgOf (some "yellow".toList) = some "#fee14e".toList ∧
    panelBgOf (some "orange".toList) = some "#fd732d".toList ∧
    panelBgOf (some "purple".toList) = some "#ce8adb".toList ∧
    panelBgOf (some "teal".toList) = some "#76d3cf".toList ∧
    panelBgOf (some "default".toList) = some "#111827".toList := by
  refine ⟨by decide, by decide, ?_, ?_, fun i c => rfl, by decide, by decide,
    by decide, by decide, by decide, by decide, by decide, by decide,
    by decide, by decide, by decide, by decide, by decide⟩
  · intro s h
    by_cases hs : s = []
    · subst hs; decide
    · have h1 : lowStr s ≠ "transparent".toList := fun he => h (by simp [he])
      have h2 : lowStr s ≠ "white".toList := fun he => h (by simp [he])
      have h3 : lowStr s ≠ "blue".toList := fun he => h (by simp [he])
      have h4 : lowStr s ≠ "default".toList := fun he => h (by simp [he])
      simp only [mapImageBg, if_neg hs, if_neg h1, if_neg h2, if_neg h3, if_neg h4]
  · intro s h
    by_cases hs : s = []
    · subst hs; decide
    · have h1 : lowStr s ≠ "transparent".toList := fun he => h (by simp [he])
      have h2 : lowStr s ≠ "white".toList := fun he => h (by simp [he])
      have h3 : lowStr s ≠ "blue".toList := fun he => h (by simp [he])
      have h4 : lowStr s ≠ "green".toList := fun he => h (by simp [he])
      have h5 : lowStr s ≠ "yellow".toList := fun he => h (by simp [he])
      have h6 : lowStr s ≠ "orange".toList := fun he => h (by simp [he])
      have h7 : lowStr s ≠ "purple".toList := fun he => h (by simp [he])
      have h8 : lowStr s ≠ "teal".toList := fun he => h (by simp [he])
      have h9 : lowStr s ≠ "default".toList := fun he => h (by simp [he])
      simp only [panelBgOf, mapChartBg, if_neg hs, if_neg h1, if_neg h2,
        if_neg h3, if_neg h4, if_neg h5, if_neg h6, if_neg h7, if_neg h8,
        if_neg h9]

/-- Witness for C5 (amended) at the unrecognized choice `magenta`. -/
theorem claim_C5_amended_witness :
    mapImageBg (some "magenta".toList) = some "#0a0a0a".toList ∧
    panelBgOf (some "magenta".toList) = some "#111827".toList :=
  ⟨claim_C5_amended.2.2.1 "magenta".toList (by decide),
   claim_C5_amended.2.2.2.1 "magenta".toList (by decide)⟩

/--
Claim C6 counterexample: style-choice matching is not fully
case-insensitive on the embedded path.  The case variant `Transparent`
produces a different rewritten save/style sequence than `transparent`,
because the branch choosing the transparent-handling sequence compares
`img_bg_choice == 'transparent'` case-sensitively (app.py line 107).
-/
theorem claim_C6_counterexample :
    saveRepl (some "Transparent".toList) none ≠
      saveRepl (some "transparent".toList) none := by decide

/--
Claim C6 (amended): the resolved style is case-insensitive for every
background choice, and the rewritten save/style sequence for a choice `c`
equals the one for the lowercase form of `c` whenever the lowercase form
is not `transparent` (a non-lowercase case variant of `transparent` does
not select the transparent-handling path).
-/
theorem claim_C6_amended (c : List Char) (chart : Option (List Char)) :
    mapImageBg (some c) = mapImageBg (some (lowStr c)) ∧
    mapChartBg (some c) = mapChartBg (some (lowStr c)) ∧
    panelBgOf (some c) = panelBgOf (some (lowStr c)) ∧
    (lowStr c ≠ "transparent".toList →
      saveRepl (some c) chart = saveRepl (some (lowStr c)) chart ∧
      ∀ code, rewriteShow code (some c) chart =
        rewriteShow code (some (lowStr c)) chart) := by
  refine ⟨(mapImageBg_low c).symm, (mapChartBg_low c).symm, ?_, ?_⟩
  · simp only [panelBgOf, mapChartBg_low]
  · intro h
    have hs := saveRepl_low c chart h
    refine ⟨hs, fun code => ?_⟩
    unfold rewriteShow
    rw [hs]

/-- Witness for C6 (amended) at the case variant `White`. -/
theorem claim_C6_amended_witness :
    saveRepl (some "White".toList) none = saveRepl (some "white".toList) none ∧
    ∀ code, rewriteShow code (some "White".toList) none =
      rewriteShow code (some "white".toList) none := by
  have e : lowStr "White".toList = "white".toList := by decide
  have h := (claim_C6_amended "White".toList none).2.2.2 (by decide)
  rw [e] at h
  exact h

/--
Claim C8: a request whose language tag is neither `python` nor `r` is
routed to the 400 invalid-language client error and to neither execution
adapter.
-/
theorem claim_C8 (language : Option (List Char))
    (h1 : language ≠ some "python".toList) (h2 : language ≠ some "r".toList) :
    routeChart language = .clientError 400 "Invalid language specified".toList ∧
    routeChart language ≠ .runPython ∧ routeChart language ≠ .runR := by
  have hroute : routeChart language =
      .clientError 400 "Invalid language specified".toList := by
    unfold routeChart
    rw [if_neg h1, if_neg h2]
  refine ⟨hroute, ?_, ?_⟩ <;> rw [hroute] <;> intro hcon <;> cases hcon

/-- Witness for C8 at the unsupported tag `julia`. -/
theorem claim_C8_witness :
    routeChart (some "julia".toList) =
      .clientError 400 "Invalid language specified".toList ∧
    routeChart (some "julia".toList) ≠ .runPython ∧
    routeChart (some "julia".toList) ≠ .runR :=
  claim_C8 (some "julia".toList) (by decide) (by decide)

/-! ### Claim theorems: C7, C10, C9, C4 -/

/--
Claim C7: when the byte sink received zero bytes after the rewritten
program ran, the embedded path synthesizes the fallback figure carrying
the text `No plot generated` and returns its rendering instead of
failing; when the sink is non-empty it is returned as-is; hence, whenever
the plotting library renders the fallback figure to a non-empty byte
sequence, the embedded path's returned bytes are non-empty.
-/
theorem claim_C7 (render : SynthImage → List Nat) (sink : List Nat)
    (hr : render noPlotFigure ≠ []) :
    (sink = [] → finalizeBuffer render sink = render noPlotFigure) ∧
    noPlotFigure.text = "No plot generated".toList ∧
    (sink ≠ [] → finalizeBuffer render sink = sink) ∧
    finalizeBuffer render sink ≠ [] := by
  refine ⟨?_, rfl, ?_, ?_⟩
  · intro h
    subst h
    rfl
  · intro h
    simp [finalizeBuffer, List.isEmpty_iff, h]
  · by_cases hs : sink = []
    · subst hs
      simp only [finalizeBuffer, List.isEmpty_nil, if_true]
      exact hr
    · simp [finalizeBuffer, List.isEmpty_iff, hs]

/-- Witness for C7: an empty sink with a renderer producing one byte. -/
theorem claim_C7_witness :
    finalizeBuffer (fun _ => [0]) [] = [0] ∧ finalizeBuffer (fun _ => [0]) [] ≠ [] := by
  have h := claim_C7 (fun _ => [0]) [] (by decide)
  exact ⟨h.1 rfl, h.2.2.2⟩

/--
Claim C10: absent source code on the embedded path is treated as the
empty program (no type error before execution): the whole rewrite
pipeline gives the same result as for the empty snippet, the rewrite of
the absent program is just the appended save sequence, and — as for every
execution — the returned byte sequence is non-empty whenever the fallback
figure renders to non-empty bytes.
-/
theorem claim_C10 :
    codeOrEmpty none = [] ∧
    (∀ csv i c, pyRewrite none csv i c = pyRewrite (some []) csv i c) ∧
    (∀ i c, rewriteShow (codeOrEmpty none) i c =
      "\n\n# Auto-added save (no plt.show() detected)\n".toList
        ++ saveRepl i c ++ "\n".toList) ∧
    (∀ render sink, render noPlotFigure ≠ [] → finalizeBuffer render sink ≠ []) := by
  refine ⟨rfl, fun csv i c => rfl, ?_, ?_⟩
  · intro i c
    have hfalse : containsSub showSentinel (codeOrEmpty none) = false := by decide
    unfold rewriteShow
    rw [hfalse]
    simp [codeOrEmpty]
  · intro render sink hr
    unfold finalizeBuffer
    split
    · exact hr
    · next hne => simpa [List.isEmpty_iff] using hne

/-- Witness for C10. -/
theorem claim_C10_witness :
    pyRewrite none none none none = pyRewrite (some []) none none none ∧
    finalizeBuffer (fun _ => [1]) [] ≠ [] :=
  ⟨claim_C10.2.1 none none none, claim_C10.2.2.2 (fun _ => [1]) [] (by decide)⟩

/--
Claim C9: the renderer command is built in the fixed order — executable,
clean-environment flag, runner script, source file, output file, then
the data file only when data is truthy, the image and chart background
choices only when truthy, and the grid flag as the literal `true`/`false`
only when specified; absent values contribute nothing; the subprocess
timeout is the fixed 90 time units.
-/
theorem claim_C9 (runner srcFile outFile dataFile : List Char)
    (csvData : Option (List PyRow)) (imgBg chartBg : Option (List Char))
    (showGrid : Option Bool) :
    buildRCommand runner srcFile outFile dataFile csvData imgBg chartBg showGrid =
      ["Rscript".toList, "--vanilla".toList, runner, srcFile, outFile]
        ++ (match csvData with
            | some rows => if rows = [] then [] else [dataFile]
            | none => [])
        ++ (match imgBg with
            | some s => if s = [] then [] else [s]
            | none => [])
        ++ (match chartBg with
            | some s => if s = [] then [] else [s]
            | none => [])
        ++ (match showGrid with
            | some b => [if b then "true".toList else "false".toList]
            | none => []) ∧
    (csvData = none → imgBg = none → chartBg = none → showGrid = none →
      buildRCommand runner srcFile outFile dataFile csvData imgBg chartBg showGrid =
        ["Rscript".toList, "--vanilla".toList, runner, srcFile, outFile]) ∧
    rSubprocessTimeout = 90 := by
  refine ⟨rfl, ?_, rfl⟩
  intro h1 h2 h3 h4
  subst h1
  subst h2
  subst h3
  subst h4
  rfl

/-- Witness for C9: the all-absent invocation is exactly the base command. -/
theorem claim_C9_witness :
    buildRCommand "run_r_script.r".toList "user_script.R".toList
        "chart.png".toList "data.csv".toList none none none none =
      ["Rscript".toList, "--vanilla".toList, "run_r_script.r".toList,
        "user_script.R".toList, "chart.png".toList] :=
  (claim_C9 "run_r_script.r".toList "user_script.R".toList "chart.png".toList
    "data.csv".toList none none none none).2.1 rfl rfl rfl rfl

theorem containsSub_infix_iff (pat l : List Char) :
    containsSub pat l = true ↔ pat <:+: l := by
  induction l with
  | nil =>
    simp [containsSub, List.isEmpty_iff, List.infix_nil]
  | cons c rest ih =>
    simp [containsSub, List.isPrefixOf_iff_prefix, ih, List.infix_cons_iff]

/--
Claim C4: the external-process path succeeds exactly when the renderer
exits with code zero and the output image file exists; when the output
file is missing the raised failure message contains the note
`(no output image generated)`.
-/
theorem claim_C4 (rc : Int) (fe : Bool) (s : List Char) :
    (rOutcome rc fe s = .ok ↔ rc = 0 ∧ fe = true) ∧
    (fe = false →
      rOutcome rc fe s = .err (rErrorMessage s false) ∧
      containsSub "(no output image generated)".toList (rErrorMessage s false) = true) := by
  constructor
  · by_cases hc : rc ≠ 0 ∨ fe = false
    · unfold rOutcome
      rw [if_pos hc]
      constructor
      · intro h
        cases h
      · rintro ⟨h1, h2⟩
        rcases hc with hc | hc
        · exact absurd h1 hc
        · rw [h2] at hc
          cases hc
    · unfold rOutcome
      rw [if_neg hc]
      push_neg at hc
      have hfe : fe = true := by
        cases fe
        · exact absurd rfl hc.2
        · rfl
      simp [hc.1, hfe]
  · intro hfe
    subst hfe
    constructor
    · unfold rOutcome
      rw [if_pos (Or.inr rfl)]
    · apply (containsSub_infix_iff _ _).mpr
      have hnote : " (no output image generated)".toList =
          ' ' :: "(no output image generated)".toList := rfl
      simp only [rErrorMessage, Bool.false_eq_true, if_false, hnote]
      split
      · exact ⟨"R execution error: ".toList ++ cleanErrorMsg s ++ [' '],
          " - ggplot2 isn't available in the runtime. If running locally, install R and ggplot2. If on Heroku with Docker, ensure the Docker image installs ggplot2 and redeploy.".toList,
          by simp⟩
      · exact ⟨"R execution error: ".toList ++ cleanErrorMsg s ++ [' '], [],
          by simp⟩

/-- Witness for C4: exit code zero with a missing output file. -/
theorem claim_C4_witness :
    rOutcome 0 false [] = .err (rErrorMessage [] false) ∧
    containsSub "(no output image generated)".toList (rErrorMessage [] false) = true :=
  (claim_C4 0 false []).2 rfl

/-! ### Lemmas: diagnostic-line selection (C3) -/

theorem containsSub_low_of_containsSub (pat l : List Char)
    (h : containsSub pat l = true) :
    containsSub (lowStr pat) (lowStr l) = true := by
  have h1 := (containsSub_infix_iff _ _).mp h
  exact (containsSub_infix_iff _ _).mpr (List.IsInfix.map lowCh h1)

theorem relevantLine_eq (l : List Char) :
    relevantLine l = containsSub "error".toList (lowStr l) := by
  unfold relevantLine
  by_cases hE : containsSub "Error".toList l = true
  · have hD : containsSub "error".toList (lowStr l) = true := by
      have h2 := containsSub_low_of_containsSub _ _ hE
      have h3 : lowStr "Error".toList = "error".toList := by decide
      rw [h3] at h2
      exact h2
    rw [hE, hD]
    simp
  · rw [Bool.not_eq_true] at hE
    rw [hE]
    simp

theorem head_filter_eq_find {α : Type} (p : α → Bool) (l : List α) :
    (l.filter p).head? = l.find? p := by
  induction l with
  | nil => rfl
  | cons a as ih =>
    rw [List.filter_cons, List.find?_cons]
    cases hp : p a
    · simp [hp, ih]
    · simp [hp]

theorem find_relevant_eq_spec (ls : List (List Char)) :
    ls.find? relevantLine = specPreferredLine ls := by
  unfold specPreferredLine
  congr 1
  funext l
  rw [relevantLine_eq]
  by_cases hb : l = "Execution halted".toList
  · subst hb
    decide
  · have hbne : (l == "Execution halted".toList) = false := by
      rw [beq_eq_false_iff_ne]
      exact hb
    rw [hbne]
    simp

theorem dropWhile_head_false {p : Char → Bool} :
    ∀ (s : List Char) (c : Char) (rest : List Char),
      s.dropWhile p = c :: rest → p c = false := by
  intro s
  induction s with
  | nil => intro c rest h; cases h
  | cons a as ih =>
    intro c rest h
    rw [List.dropWhile_cons] at h
    split at h
    · exact ih c rest h
    · next hp =>
      injection h with h1 _
      subst h1
      exact Bool.eq_false_iff.mpr hp

theorem stripL_prefix_dropWhile (s : List Char) :
    stripL s <+: s.dropWhile isWsCh := by
  unfold stripL
  obtain ⟨u, hu⟩ := List.dropWhile_suffix (l := (s.dropWhile isWsCh).reverse) isWsCh
  refine ⟨u.reverse, ?_⟩
  have h2 := congrArg List.reverse hu
  simpa [List.reverse_append] using h2

theorem splitNl_ne_nil (s : List Char) : splitNl s ≠ [] := by
  induction s with
  | nil => simp [splitNl]
  | cons c rest ih =>
    cases h : splitNl rest with
    | nil => exact absurd h ih
    | cons hh tt =>
      simp only [splitNl, h]
      split <;> simp

theorem stripL_cons_ne_nil (c : Char) (rest : List Char) (h : isWsCh c = false) :
    stripL (c :: rest) ≠ [] := by
  unfold stripL
  intro habs
  rw [List.reverse_eq_nil_iff, List.dropWhile_eq_nil_iff] at habs
  have hmem : c ∈ (List.dropWhile isWsCh (c :: rest)).reverse := by
    rw [List.dropWhile_cons, if_neg (by simp [h])]
    simp
  have hc := habs c hmem
  rw [h] at hc
  cases hc

/--
Claim C3: the failure-path diagnostic message prefers the first line that
contains the error keyword and is not the generic `Execution halted`
banner (the source's filter selects exactly the spec's preferred line);
when no line contains the keyword the message is the first (non-empty)
diagnostic line truncated to 200 characters; and whenever the selected
text exceeds 300 characters the message is its 300-character truncation
with a trailing `...` marker.
-/
theorem claim_C3 (raw : List Char) :
    (errLinesOf raw).find? relevantLine = specPreferredLine (errLinesOf raw) ∧
    (∀ e, (errLinesOf raw).find? relevantLine = some e →
      cleanErrorMsg raw = truncate300 (stripL e)) ∧
    ((errLinesOf raw).find? relevantLine = none → stripL raw ≠ [] →
      ∃ l0 t, errLinesOf raw = l0 :: t ∧ stripL l0 ≠ [] ∧
        cleanErrorMsg raw = (stripL l0).take 200) ∧
    (300 < (cleanErrorPre raw).length →
      cleanErrorMsg raw = (cleanErrorPre raw).take 300 ++ "...".toList) := by
  refine ⟨find_relevant_eq_spec _, ?_, ?_, ?_⟩
  · intro e he
    rw [← head_filter_eq_find] at he
    cases hf : (errLinesOf raw).filter relevantLine with
    | nil => rw [hf] at he; cases he
    | cons x xs =>
      rw [hf, List.head?_cons] at he
      have hxe : x = e := by injection he
      subst hxe
      simp only [cleanErrorMsg, cleanErrorPre, hf]
  · intro hn hne
    have hfilter : (errLinesOf raw).filter relevantLine = [] := by
      rw [← List.head?_eq_none_iff, head_filter_eq_find]
      exact hn
    obtain ⟨c, tail, hct⟩ : ∃ c tail, stripL raw = c :: tail := by
      cases h : stripL raw with
      | nil => exact absurd h hne
      | cons c t => exact ⟨c, t, rfl⟩
    have hcw : isWsCh c = false := by
      obtain ⟨u, hu⟩ := stripL_prefix_dropWhile raw
      rw [hct] at hu
      exact dropWhile_head_false raw c (tail ++ u) (by rw [← hu]; simp)
    have hcnl : ¬(c = '\n') := by
      intro hcn
      subst hcn
      simp [isWsCh] at hcw
    have hiE : (stripL raw).isEmpty = false := by rw [hct]; rfl
    have hel : errLinesOf raw = splitNl (stripL raw) := by
      unfold errLinesOf
      rw [hiE]
      simp
    obtain ⟨h0, t0, hrest⟩ : ∃ h0 t0, splitNl tail = h0 :: t0 := by
      cases h : splitNl tail with
      | nil => exact absurd h (splitNl_ne_nil tail)
      | cons a b => exact ⟨a, b, rfl⟩
    have hsp : splitNl (stripL raw) = (c :: h0) :: t0 := by
      rw [hct]
      simp only [splitNl, hrest]
      rw [if_neg hcnl]
    refine ⟨c :: h0, t0, by rw [hel, hsp], stripL_cons_ne_nil c h0 hcw, ?_⟩
    have hmain : cleanErrorPre raw = (stripL (c :: h0)).take 200 := by
      have hfilter2 : List.filter relevantLine ((c :: h0) :: t0) = [] := by
        rw [← hsp, ← hel]
        exact hfilter
      simp only [cleanErrorPre, hiE, hel, hsp, hfilter2, Bool.false_eq_true, if_false]
    unfold cleanErrorMsg
    rw [hmain]
    unfold truncate300
    rw [if_neg (by have := List.length_take_le 200 (stripL (c :: h0)); omega)]
  · intro h300
    unfold cleanErrorMsg truncate300
    rw [if_pos h300]

/-- Witness for C3 at a three-line diagnostic stream whose second line
carries the error keyword. -/
theorem claim_C3_witness :
    cleanErrorMsg "Warning: x\nError: boom\nExecution halted".toList =
      truncate300 (stripL "Error: boom".toList) :=
  (claim_C3 "Warning: x\nError: boom\nExecution halted".toList).2.1
    "Error: boom".toList (by decide)

/-! ### Lemmas: CSV record counting (C2) -/

theorem lookupMemPair (k : List Char) :
    ∀ (r : PyRow) (v : List Char), List.lookup k r = some v → (k, v) ∈ r := by
  intro r
  induction r with
  | nil => intro v h; cases h
  | cons p rest ih =>
    intro v h
    rw [List.lookup] at h
    split at h
    · next heq =>
      injection h with h
      subst h
      have := eq_of_beq heq
      subst this
      exact List.mem_cons_self _ _
    · exact List.mem_cons_of_mem _ (ih v h)

theorem mem_csvQuoteField (f : List Char) (ch : Char) (h : ch ∈ csvQuoteField f) :
    ch = '"' ∨ ch ∈ f := by
  unfold csvQuoteField at h
  split at h
  · rcases List.mem_cons.mp h with h1 | h2
    · left; exact h1
    · rcases List.mem_append.mp h2 with h3 | h4
      · rcases List.mem_flatMap.mp h3 with ⟨a, ha, hcha⟩
        by_cases hq : a = '"'
        · rw [if_pos hq] at hcha
          left
          simpa using hcha
        · rw [if_neg hq] at hcha
          right
          have : ch = a := by simpa using hcha
          rw [this]
          exact ha
      · left
        simpa using h4
  · right; exact h

theorem mem_joinCells :
    ∀ (cells : List (List Char)) (ch : Char), ch ∈ joinCells cells →
      ch = ',' ∨ ∃ cell ∈ cells, ch ∈ cell := by
  intro cells
  induction cells with
  | nil =>
    intro ch h
    simp [joinCells] at h
  | cons x xs ih =>
    cases xs with
    | nil =>
      intro ch h
      right
      exact ⟨x, by simp, by simpa [joinCells] using h⟩
    | cons y rest =>
      intro ch h
      rw [joinCells] at h
      rcases List.mem_append.mp h with h1 | h2
      · right; exact ⟨x, by simp, h1⟩
      · rcases List.mem_cons.mp h2 with h3 | h4
        · left; exact h3
        · rcases ih ch h4 with h5 | ⟨cell, hcell, hchc⟩
          · left; exact h5
          · right; exact ⟨cell, by simp [hcell], hchc⟩

theorem countOcc_crlf_concat :
    ∀ (b rest : List Char), (∀ ch ∈ b, ch ≠ '\r') →
      countOcc "\r\n".toList (b ++ '\r' :: '\n' :: rest) =
        1 + countOcc "\r\n".toList rest := by
  intro b
  induction b with
  | nil =>
    intro rest _
    rw [List.nil_append, countOcc_cons,
      if_pos ⟨List.isPrefixOf_iff_prefix.mpr ⟨rest, rfl⟩, by decide⟩]
    simp
  | cons c b' ih =>
    intro rest hb
    have hc : c ≠ '\r' := hb c (by simp)
    rw [List.cons_append, countOcc_cons]
    have hpre : ("\r\n".toList).isPrefixOf (c :: (b' ++ '\r' :: '\n' :: rest)) = false := by
      rw [Bool.eq_false_iff]
      intro habs
      obtain ⟨t, ht⟩ := List.isPrefixOf_iff_prefix.mp habs
      have : c = '\r' := by
        have := congrArg (fun l => l.head?) ht
        simpa using this.symm
      exact hc this
    rw [if_neg (fun hcon => by rw [hpre] at hcon; exact absurd hcon.1 (by simp))]
    exact ih rest (fun ch hch => hb ch (by simp [hch]))

theorem csvRecord_count (cells : List (List Char)) (rest : List Char)
    (hc : ∀ cell ∈ cells, ∀ ch ∈ cell, ch ≠ '\r' ∧ ch ≠ '\n') :
    countOcc "\r\n".toList (csvRecord cells ++ rest) =
      1 + countOcc "\r\n".toList rest := by
  unfold csvRecord
  rw [List.append_assoc]
  have hshape : "\r\n".toList ++ rest = '\r' :: '\n' :: rest := rfl
  rw [hshape]
  apply countOcc_crlf_concat
  intro ch hch
  rcases mem_joinCells _ ch hch with hcomma | ⟨cell, hcell, hchc⟩
  · rw [hcomma]; decide
  · rcases List.mem_map.mp hcell with ⟨f, hf, rfl⟩
    rcases mem_csvQuoteField f ch hchc with hq | hmem
    · rw [hq]; decide
    · exact (hc f hf ch hmem).1

theorem rowCells_crlf_free (fieldnames : List (List Char)) (r : PyRow)
    (hr : ∀ kv ∈ r, ∀ ch ∈ kv.2, ch ≠ '\r' ∧ ch ≠ '\n') :
    ∀ cell ∈ rowCells fieldnames r, ∀ ch ∈ cell, ch ≠ '\r' ∧ ch ≠ '\n' := by
  intro cell hcell ch hch
  rcases List.mem_map.mp hcell with ⟨k, hk, rfl⟩
  cases hl : List.lookup k r with
  | none =>
    rw [hl] at hch
    simp at hch
  | some v =>
    rw [hl] at hch
    exact hr (k, v) (lookupMemPair k r v hl) ch (by simpa using hch)

theorem csvRecords_count (fieldnames : List (List Char)) :
    ∀ (rs : List PyRow),
      (∀ r ∈ rs, ∀ kv ∈ r, ∀ ch ∈ kv.2, ch ≠ '\r' ∧ ch ≠ '\n') →
      countOcc "\r\n".toList
          ((rs.map fun r => csvRecord (rowCells fieldnames r)).flatten) = rs.length := by
  intro rs
  induction rs with
  | nil => intro _; rfl
  | cons r rs' ih =>
    intro h
    simp only [List.map_cons, List.flatten_cons]
    rw [csvRecord_count]
    · rw [ih (fun r' hr' => h r' (by simp [hr']))]
      simp [Nat.add_comm]
    · exact rowCells_crlf_free fieldnames r (fun kv hkv => h r (by simp) kv hkv)

theorem csvSerialize_count (r0 : PyRow) (rest : List PyRow)
    (hfree : ∀ r ∈ r0 :: rest, ∀ kv ∈ r,
      (∀ ch ∈ kv.1, ch ≠ '\r' ∧ ch ≠ '\n') ∧ (∀ ch ∈ kv.2, ch ≠ '\r' ∧ ch ≠ '\n')) :
    countOcc "\r\n".toList (csvSerialize (r0 :: rest)) = (r0 :: rest).length + 1 := by
  unfold csvSerialize
  rw [csvRecord_count]
  · rw [csvRecords_count _ _ (fun r hr kv hkv ch hch => ((hfree r hr kv hkv).2) ch hch)]
    simp [Nat.add_comm]
  · intro cell hcell ch hch
    rcases List.mem_map.mp hcell with ⟨kv, hkv, rfl⟩
    exact (hfree r0 (by simp) kv hkv).1 ch hch

/-! ### Lemmas: the `pd.read_csv` substitution (C2) -/

theorem expectLit_some (pat l r : List Char) (h : expectLit pat l = some r) :
    r.length + pat.length = l.length := by
  unfold expectLit at h
  split at h
  · next hpre =>
    injection h with h
    subst h
    have hle : pat.length ≤ l.length := (List.isPrefixOf_iff_prefix.mp hpre).length_le
    rw [List.length_drop]
    omega
  · cases h

theorem expectCh_some (c : Char) (l r : List Char) (h : expectCh c l = some r) :
    l = c :: r := by
  cases l with
  | nil => cases h
  | cons x rest =>
    have h' : (if x = c then some rest else none) = some r := h
    split at h'
    · next hx =>
      injection h' with h'
      rw [hx, h']
    · cases h'

theorem expectQuote_some (l r : List Char) (h : expectQuote l = some r) :
    ∃ q, l = q :: r ∧ isQuoteCh q = true := by
  cases l with
  | nil => cases h
  | cons x rest =>
    have h' : (if isQuoteCh x = true then some rest else none) = some r := h
    split at h'
    · next hx =>
      injection h' with h'
      exact ⟨x, by rw [h'], hx⟩
    · cases h'

theorem matchRest_length (l r : List Char) (h : matchRest l = some r) :
    r.length < l.length := by
  unfold matchRest at h
  cases h1 : expectLit "pd.read_csv".toList l with
  | none => rw [h1, Option.none_bind] at h; cases h
  | some r1 =>
  rw [h1, Option.some_bind] at h
  cases h2 : expectCh '(' (r1.dropWhile isWsCh) with
  | none => rw [h2, Option.none_bind] at h; cases h
  | some r3 =>
  rw [h2, Option.some_bind] at h
  cases h3 : expectQuote (r3.dropWhile isWsCh) with
  | none => rw [h3, Option.none_bind] at h; cases h
  | some r5 =>
  rw [h3, Option.some_bind] at h
  cases h4 : expectQuote (r5.dropWhile fun c => !isQuoteCh c) with
  | none => rw [h4, Option.none_bind] at h; cases h
  | some r7 =>
  rw [h4, Option.some_bind] at h
  have e1 := expectLit_some _ _ _ h1
  have hlen11 : ("pd.read_csv".toList).length = 11 := rfl
  rw [hlen11] at e1
  have d1 : (r1.dropWhile isWsCh).length ≤ r1.length := (List.dropWhile_sublist _).length_le
  have l2 : r3.length + 1 = (r1.dropWhile isWsCh).length := by
    rw [expectCh_some _ _ _ h2]
    rfl
  have d2 : (r3.dropWhile isWsCh).length ≤ r3.length := (List.dropWhile_sublist _).length_le
  obtain ⟨q3, e3, _⟩ := expectQuote_some _ _ h3
  have l3 : r5.length + 1 = (r3.dropWhile isWsCh).length := by rw [e3]; rfl
  have d3 : ((r5.dropWhile fun c => !isQuoteCh c)).length ≤ r5.length :=
    (List.dropWhile_sublist _).length_le
  obtain ⟨q4, e4, _⟩ := expectQuote_some _ _ h4
  have l4 : r7.length + 1 = ((r5.dropWhile fun c => !isQuoteCh c)).length := by
    rw [e4]; rfl
  have d4 : (r7.dropWhile isWsCh).length ≤ r7.length := (List.dropWhile_sublist _).length_le
  cases h5 : r7.dropWhile isWsCh with
  | nil => rw [h5] at h; cases h
  | cons c8 r9 =>
  rw [h5] at h
  have l5 : r9.length + 1 = (r7.dropWhile isWsCh).length := by rw [h5]; rfl
  have h' : (if c8 = ')' then some r9
      else if c8 = ',' then
        match ((r9.dropWhile isWsCh).dropWhile fun c => c ≠ ')') with
        | [] => none
        | c10 :: r11 => if c10 = ')' then some r11 else none
      else none) = some r := h
  by_cases hc8 : c8 = ')'
  · rw [if_pos hc8] at h'
    injection h' with h'
    subst h'
    omega
  · rw [if_neg hc8] at h'
    by_cases hc8' : c8 = ','
    · rw [if_pos hc8'] at h'
      have d5 : (((r9.dropWhile isWsCh).dropWhile fun c => c ≠ ')')).length ≤ r9.length :=
        le_trans (List.dropWhile_sublist _).length_le (List.dropWhile_sublist _).length_le
      cases h6 : ((r9.dropWhile isWsCh).dropWhile fun c => c ≠ ')') with
      | nil => rw [h6] at h'; cases h'
      | cons c10 r11 =>
        rw [h6] at h'
        have l6 : r11.length + 1 =
            (((r9.dropWhile isWsCh).dropWhile fun c => c ≠ ')')).length := by
          rw [h6]; rfl
        have h'' : (if c10 = ')' then some r11 else none) = some r := h'
        by_cases hc10 : c10 = ')'
        · rw [if_pos hc10] at h''
          injection h'' with h''
          subst h''
          omega
        · rw [if_neg hc10] at h''
          cases h''
    · rw [if_neg hc8'] at h'
      cases h'

theorem reSubAux_nil (sub : List Char) (f : Nat) : reSubAux sub f [] = [] := by
  cases f <;> rfl

theorem reSub_nil (sub : List Char) : reSub sub [] = [] := rfl

theorem reSubAux_fuel (sub : List Char) :
    ∀ (f1 f2 : Nat) (l : List Char), l.length ≤ f1 → l.length ≤ f2 →
      reSubAux sub f1 l = reSubAux sub f2 l := by
  intro f1
  induction f1 with
  | zero =>
    intro f2 l h1 _
    have : l = [] := List.length_eq_zero.mp (Nat.le_zero.mp h1)
    subst this
    rw [reSubAux_nil, reSubAux_nil]
  | succ f ih =>
    intro f2 l h1 h2
    cases l with
    | nil => rw [reSubAux_nil, reSubAux_nil]
    | cons c rest =>
      cases f2 with
      | zero => simp at h2
      | succ g =>
        simp only [reSubAux]
        cases hm : matchRest (c :: rest) with
        | some rem =>
          have hlt := matchRest_length _ _ hm
          simp only [List.length_cons] at h1 h2 hlt
          show sub ++ reSubAux sub f rem = sub ++ reSubAux sub g rem
          rw [ih g rem (by omega) (by omega)]
        | none =>
          simp only [List.length_cons] at h1 h2
          show c :: reSubAux sub f rest = c :: reSubAux sub g rest
          rw [ih g rest (by omega) (by omega)]

theorem reSub_cons (sub : List Char) (c : Char) (rest : List Char) :
    reSub sub (c :: rest) =
      match matchRest (c :: rest) with
      | some rem => sub ++ reSub sub rem
      | none => c :: reSub sub rest := by
  show reSubAux sub (rest.length + 1) (c :: rest) = _
  simp only [reSubAux]
  cases hm : matchRest (c :: rest) with
  | some rem =>
    have hlt := matchRest_length _ _ hm
    simp only [List.length_cons] at hlt
    show sub ++ reSubAux sub rest.length rem = sub ++ reSub sub rem
    rw [reSubAux_fuel sub rest.length rem.length rem (by omega) (le_refl _)]
    rfl
  | none => rfl

theorem reSub_no_match (sub : List Char) :
    ∀ l, hasMatch l = false → reSub sub l = l := by
  intro l
  induction l with
  | nil => intro _; rfl
  | cons c rest ih =>
    intro h
    simp only [hasMatch, Bool.or_eq_false_iff] at h
    cases hm : matchRest (c :: rest) with
    | some rem =>
      rw [hm] at h
      simp at h
    | none =>
      rw [reSub_cons, hm]
      exact congrArg (fun t => c :: t) (ih h.2)

theorem dropWhile_append_all {p : Char → Bool} :
    ∀ (xs ys : List Char), (∀ x ∈ xs, p x = true) →
      List.dropWhile p (xs ++ ys) = List.dropWhile p ys := by
  intro xs
  induction xs with
  | nil => intro ys _; rfl
  | cons a as ih =>
    intro ys h
    rw [List.cons_append, List.dropWhile_cons, if_pos (h a (by simp))]
    exact ih ys (fun x hx => h x (by simp [hx]))

theorem matchRest_call (fname post : List Char)
    (hq : ∀ ch ∈ fname, isQuoteCh ch = false) :
    matchRest ("pd.read_csv('".toList ++ fname ++ "')".toList ++ post) = some post := by
  have hshape : "pd.read_csv('".toList ++ fname ++ "')".toList ++ post =
      "pd.read_csv".toList ++ ('(' :: '\'' :: (fname ++ '\'' :: ')' :: post)) := by
    have h1 : "pd.read_csv('".toList = "pd.read_csv".toList ++ ['(', '\''] := by decide
    have h2 : "')".toList = ['\'', ')'] := by decide
    rw [h1, h2]
    simp
  rw [hshape]
  unfold matchRest
  have e1 : expectLit "pd.read_csv".toList
      ("pd.read_csv".toList ++ ('(' :: '\'' :: (fname ++ '\'' :: ')' :: post))) =
      some ('(' :: '\'' :: (fname ++ '\'' :: ')' :: post)) := by
    unfold expectLit
    rw [if_pos (List.isPrefixOf_iff_prefix.mpr ⟨_, rfl⟩), List.drop_left]
  rw [e1, Option.some_bind]
  have e2 : List.dropWhile isWsCh ('(' :: '\'' :: (fname ++ '\'' :: ')' :: post)) =
      '(' :: '\'' :: (fname ++ '\'' :: ')' :: post) := by
    rw [List.dropWhile_cons, if_neg (by decide)]
  rw [e2]
  have e3 : expectCh '(' ('(' :: '\'' :: (fname ++ '\'' :: ')' :: post)) =
      some ('\'' :: (fname ++ '\'' :: ')' :: post)) := by
    simp [expectCh]
  rw [e3, Option.some_bind]
  have e4 : List.dropWhile isWsCh ('\'' :: (fname ++ '\'' :: ')' :: post)) =
      '\'' :: (fname ++ '\'' :: ')' :: post) := by
    rw [List.dropWhile_cons, if_neg (by decide)]
  rw [e4]
  have e5 : expectQuote ('\'' :: (fname ++ '\'' :: ')' :: post)) =
      some (fname ++ '\'' :: ')' :: post) := by
    simp [expectQuote, isQuoteCh]
  rw [e5, Option.some_bind]
  have e6 : List.dropWhile (fun c => !isQuoteCh c) (fname ++ '\'' :: ')' :: post) =
      '\'' :: ')' :: post := by
    rw [dropWhile_append_all fname _ (fun x hx => by simp [hq x hx])]
    rw [List.dropWhile_cons, if_neg (by decide)]
  rw [e6]
  have e7 : expectQuote ('\'' :: ')' :: post) = some (')' :: post) := by
    simp [expectQuote, isQuoteCh]
  rw [e7, Option.some_bind]
  have e8 : List.dropWhile isWsCh (')' :: post) = ')' :: post := by
    rw [List.dropWhile_cons, if_neg (by decide)]
  rw [e8]
  show (if (')' : Char) = ')' then some post
      else if (')' : Char) = ',' then
        match ((post.dropWhile isWsCh).dropWhile fun c => c ≠ ')') with
        | [] => none
        | c10 :: r11 => if c10 = ')' then some r11 else none
      else none) = some post
  rw [if_pos rfl]

theorem dropWhile_ws_nonparen (args post : List Char)
    (h : ∀ ch ∈ args, ch ≠ ')') :
    (((args ++ ')' :: post).dropWhile isWsCh).dropWhile fun c => c ≠ ')') =
      ')' :: post := by
  rw [List.dropWhile_append]
  split
  · rw [show List.dropWhile isWsCh (')' :: post) = ')' :: post from by
      rw [List.dropWhile_cons, if_neg (by decide)]]
    rw [List.dropWhile_cons, if_neg (by decide)]
  · rw [dropWhile_append_all _ _ (fun x hx => by
      have hxa : x ∈ args := (List.dropWhile_sublist isWsCh).subset hx
      simp [h x hxa])]
    rw [List.dropWhile_cons, if_neg (by decide)]

theorem matchRest_call_kwargs (fname args post : List Char)
    (hq : ∀ ch ∈ fname, isQuoteCh ch = false)
    (hargs : ∀ ch ∈ args, ch ≠ ')') :
    matchRest ("pd.read_csv('".toList ++ fname ++ "',".toList ++ args ++ ")".toList ++ post) =
      some post := by
  have hshape : "pd.read_csv('".toList ++ fname ++ "',".toList ++ args ++ ")".toList ++ post =
      "pd.read_csv".toList ++ ('(' :: '\'' :: (fname ++ '\'' :: ',' :: (args ++ ')' :: post))) := by
    have h1 : "pd.read_csv('".toList = "pd.read_csv".toList ++ ['(', '\''] := by decide
    have h2 : "',".toList = ['\'', ','] := by decide
    have h3 : ")".toList = [')'] := by decide
    rw [h1, h2, h3]
    simp
  rw [hshape]
  unfold matchRest
  have e1 : expectLit "pd.read_csv".toList
      ("pd.read_csv".toList ++ ('(' :: '\'' :: (fname ++ '\'' :: ',' :: (args ++ ')' :: post)))) =
      some ('(' :: '\'' :: (fname ++ '\'' :: ',' :: (args ++ ')' :: post))) := by
    unfold expectLit
    rw [if_pos (List.isPrefixOf_iff_prefix.mpr ⟨_, rfl⟩), List.drop_left]
  rw [e1, Option.some_bind]
  have e2 : List.dropWhile isWsCh ('(' :: '\'' :: (fname ++ '\'' :: ',' :: (args ++ ')' :: post))) =
      '(' :: '\'' :: (fname ++ '\'' :: ',' :: (args ++ ')' :: post)) := by
    rw [List.dropWhile_cons, if_neg (by decide)]
  rw [e2]
  have e3 : expectCh '(' ('(' :: '\'' :: (fname ++ '\'' :: ',' :: (args ++ ')' :: post))) =
      some ('\'' :: (fname ++ '\'' :: ',' :: (args ++ ')' :: post))) := by
    simp [expectCh]
  rw [e3, Option.some_bind]
  have e4 : List.dropWhile isWsCh ('\'' :: (fname ++ '\'' :: ',' :: (args ++ ')' :: post))) =
      '\'' :: (fname ++ '\'' :: ',' :: (args ++ ')' :: post)) := by
    rw [List.dropWhile_cons, if_neg (by decide)]
  rw [e4]
  have e5 : expectQuote ('\'' :: (fname ++ '\'' :: ',' :: (args ++ ')' :: post))) =
      some (fname ++ '\'' :: ',' :: (args ++ ')' :: post)) := by
    simp [expectQuote, isQuoteCh]
  rw [e5, Option.some_bind]
  have e6 : List.dropWhile (fun c => !isQuoteCh c) (fname ++ '\'' :: ',' :: (args ++ ')' :: post)) =
      '\'' :: ',' :: (args ++ ')' :: post) := by
    rw [dropWhile_append_all fname _ (fun x hx => by simp [hq x hx])]
    rw [List.dropWhile_cons, if_neg (by decide)]
  rw [e6]
  have e7 : expectQuote ('\'' :: ',' :: (args ++ ')' :: post)) =
      some (',' :: (args ++ ')' :: post)) := by
    simp [expectQuote, isQuoteCh]
  rw [e7, Option.some_bind]
  have e8 : List.dropWhile isWsCh (',' :: (args ++ ')' :: post)) =
      ',' :: (args ++ ')' :: post) := by
    rw [List.dropWhile_cons, if_neg (by decide)]
  rw [e8]
  show (if (',' : Char) = ')' then some (args ++ ')' :: post)
      else if (',' : Char) = ',' then
        match (((args ++ ')' :: post).dropWhile isWsCh).dropWhile fun c => c ≠ ')') with
        | [] => none
        | c10 :: r11 => if c10 = ')' then some r11 else none
      else none) = some post
  rw [if_neg (by decide), if_pos rfl, dropWhile_ws_nonparen args post hargs]
  show (if (')' : Char) = ')' then some post else none) = some post
  rw [if_pos rfl]

theorem matchRest_inmemory (post : List Char) :
    matchRest (csvRepl ++ post) = none := by
  have hshape : csvRepl ++ post =
      "pd.read_csv".toList ++ ('(' :: 'i' :: ("o.StringIO(csv_data_string))".toList ++ post)) := by
    have h1 : csvRepl =
        "pd.read_csv".toList ++ ('(' :: 'i' :: "o.StringIO(csv_data_string))".toList) := by decide
    rw [h1]
    simp
  rw [hshape]
  unfold matchRest
  have e1 : expectLit "pd.read_csv".toList
      ("pd.read_csv".toList ++ ('(' :: 'i' :: ("o.StringIO(csv_data_string))".toList ++ post))) =
      some ('(' :: 'i' :: ("o.StringIO(csv_data_string))".toList ++ post)) := by
    unfold expectLit
    rw [if_pos (List.isPrefixOf_iff_prefix.mpr ⟨_, rfl⟩), List.drop_left]
  rw [e1, Option.some_bind]
  have e2 : List.dropWhile isWsCh ('(' :: 'i' :: ("o.StringIO(csv_data_string))".toList ++ post)) =
      '(' :: 'i' :: ("o.StringIO(csv_data_string))".toList ++ post) := by
    rw [List.dropWhile_cons, if_neg (by decide)]
  rw [e2]
  have e3 : expectCh '(' ('(' :: 'i' :: ("o.StringIO(csv_data_string))".toList ++ post)) =
      some ('i' :: ("o.StringIO(csv_data_string))".toList ++ post)) := by
    simp [expectCh]
  rw [e3, Option.some_bind]
  have e4 : List.dropWhile isWsCh ('i' :: ("o.StringIO(csv_data_string))".toList ++ post)) =
      'i' :: ("o.StringIO(csv_data_string))".toList ++ post) := by
    rw [List.dropWhile_cons, if_neg (by decide)]
  rw [e4]
  have e5 : expectQuote ('i' :: ("o.StringIO(csv_data_string))".toList ++ post)) = none := by
    simp [expectQuote, isQuoteCh]
  rw [e5, Option.none_bind]

theorem matchRest_lit_prefix (l r : List Char) (h : matchRest l = some r) :
    ("pd.read_csv".toList).isPrefixOf l = true := by
  by_contra hno
  rw [Bool.not_eq_true] at hno
  unfold matchRest expectLit at h
  rw [hno] at h
  simp at h

theorem lit_no_self_overlap :
    ∀ m, 1 ≤ m → m ≤ 10 →
      "pd.read_csv".toList.take m ++ "pd.read_csv".toList.take (11 - m) ≠
        "pd.read_csv".toList := by
  intro m h1 h2
  interval_cases m <;> decide

theorem prefix_of_append_left {l a b : List Char} (h : l <+: a ++ b)
    (hl : l.length ≤ a.length) : l <+: a := by
  have he := List.prefix_iff_eq_take.mp h
  rw [List.take_append_of_le_length hl] at he
  rw [he]
  exact List.take_prefix _ _

theorem no_lit_at_boundary (s rest2 : List Char) (hs : s ≠ [])
    (hcs : containsSub "pd.read_csv".toList s = false) :
    ("pd.read_csv".toList).isPrefixOf (s ++ "pd.read_csv".toList ++ rest2) = false := by
  rw [Bool.eq_false_iff]
  intro habs
  have hpfx : "pd.read_csv".toList <+: s ++ "pd.read_csv".toList ++ rest2 :=
    List.isPrefixOf_iff_prefix.mp habs
  have h11 : ("pd.read_csv".toList).length = 11 := rfl
  by_cases hlen : 11 ≤ s.length
  · have hApre : "pd.read_csv".toList <+: s := by
      rw [List.append_assoc] at hpfx
      exact prefix_of_append_left hpfx (by rw [h11]; omega)
    have hc : containsSub "pd.read_csv".toList s = true :=
      (containsSub_infix_iff _ _).mpr hApre.isInfix
    rw [hc] at hcs
    cases hcs
  · push_neg at hlen
    have hslen : 1 ≤ s.length := by
      cases s with
      | nil => exact absurd rfl hs
      | cons a t => simp
    have htake := List.prefix_iff_eq_take.mp hpfx
    rw [h11] at htake
    rw [List.take_append_of_le_length (by rw [List.length_append, h11]; omega)] at htake
    rw [show (11 : Nat) = s.length + (11 - s.length) from by omega, List.take_append] at htake
    have hs2 : s = "pd.read_csv".toList.take s.length := by
      have hteq := congrArg (List.take s.length) htake
      rw [List.take_left] at hteq
      exact hteq.symm
    apply lit_no_self_overlap s.length hslen (by omega)
    rw [← hs2]
    exact htake.symm

theorem reSub_skip_call (sub : List Char) :
    ∀ (pre rest2 post' : List Char),
      containsSub "pd.read_csv".toList pre = false →
      matchRest ("pd.read_csv".toList ++ rest2) = some post' →
      reSub sub (pre ++ "pd.read_csv".toList ++ rest2) =
        pre ++ sub ++ reSub sub post' := by
  intro pre
  induction pre with
  | nil =>
    intro rest2 post' _ hm
    have hcons : "pd.read_csv".toList ++ rest2 = 'p' :: ("d.read_csv".toList ++ rest2) := by
      have h1 : "pd.read_csv".toList = 'p' :: "d.read_csv".toList := by decide
      rw [h1]
      simp
    rw [List.nil_append, hcons, reSub_cons, ← hcons, hm]
    show sub ++ reSub sub post' = [] ++ sub ++ reSub sub post'
    simp
  | cons c pre' ih =>
    intro rest2 post' hpre hm
    have hparts : (("pd.read_csv".toList).isPrefixOf (c :: pre')
        || containsSub "pd.read_csv".toList pre') = false := hpre
    rw [Bool.or_eq_false_iff] at hparts
    have hnofit : ("pd.read_csv".toList).isPrefixOf
        ((c :: pre') ++ "pd.read_csv".toList ++ rest2) = false :=
      no_lit_at_boundary (c :: pre') rest2 (by simp) hpre
    have hnone : matchRest (c :: (pre' ++ "pd.read_csv".toList ++ rest2)) = none := by
      cases hmr : matchRest (c :: (pre' ++ "pd.read_csv".toList ++ rest2)) with
      | none => rfl
      | some r =>
        exfalso
        have hlit := matchRest_lit_prefix _ _ hmr
        rw [show c :: (pre' ++ "pd.read_csv".toList ++ rest2) =
            (c :: pre') ++ "pd.read_csv".toList ++ rest2 from by simp] at hlit
        rw [hlit] at hnofit
        cases hnofit
    have hstep : (c :: pre') ++ "pd.read_csv".toList ++ rest2 =
        c :: (pre' ++ "pd.read_csv".toList ++ rest2) := by simp
    rw [hstep, reSub_cons, hnone]
    show c :: reSub sub (pre' ++ "pd.read_csv".toList ++ rest2) =
      (c :: pre') ++ sub ++ reSub sub post'
    rw [ih rest2 post' hparts.2 hm]
    simp

theorem reSub_call_ctx (pre fname post : List Char)
    (hpre : containsSub "pd.read_csv".toList pre = false)
    (hq : ∀ ch ∈ fname, isQuoteCh ch = false) :
    reSub csvRepl (pre ++ "pd.read_csv('".toList ++ fname ++ "')".toList ++ post) =
      pre ++ csvRepl ++ reSub csvRepl post := by
  have h1 : "pd.read_csv('".toList = "pd.read_csv".toList ++ "('".toList := by decide
  have hsh : pre ++ "pd.read_csv('".toList ++ fname ++ "')".toList ++ post =
      pre ++ "pd.read_csv".toList ++ ("('".toList ++ fname ++ "')".toList ++ post) := by
    rw [h1]
    simp
  rw [hsh]
  apply reSub_skip_call csvRepl pre _ post hpre
  have hsh2 : "pd.read_csv".toList ++ ("('".toList ++ fname ++ "')".toList ++ post) =
      "pd.read_csv('".toList ++ fname ++ "')".toList ++ post := by
    rw [h1]
    simp
  rw [hsh2]
  exact matchRest_call fname post hq

theorem reSub_call_kwargs_ctx (pre fname args post : List Char)
    (hpre : containsSub "pd.read_csv".toList pre = false)
    (hq : ∀ ch ∈ fname, isQuoteCh ch = false)
    (hargs : ∀ ch ∈ args, ch ≠ ')') :
    reSub csvRepl
        (pre ++ "pd.read_csv('".toList ++ fname ++ "',".toList ++ args ++ ")".toList ++ post) =
      pre ++ csvRepl ++ reSub csvRepl post := by
  have h1 : "pd.read_csv('".toList = "pd.read_csv".toList ++ "('".toList := by decide
  have hsh : pre ++ "pd.read_csv('".toList ++ fname ++ "',".toList ++ args ++ ")".toList ++ post =
      pre ++ "pd.read_csv".toList ++
        ("('".toList ++ fname ++ "',".toList ++ args ++ ")".toList ++ post) := by
    rw [h1]
    simp
  rw [hsh]
  apply reSub_skip_call csvRepl pre _ post hpre
  have hsh2 : "pd.read_csv".toList ++
      ("('".toList ++ fname ++ "',".toList ++ args ++ ")".toList ++ post) =
      "pd.read_csv('".toList ++ fname ++ "',".toList ++ args ++ ")".toList ++ post := by
    rw [h1]
    simp
  rw [hsh2]
  exact matchRest_call_kwargs fname args post hq hargs

/-! ### Lemmas: data-literal placement (C2) -/

theorem insertIdxGo_spec :
    ∀ (ls : List (List Char)) (i acc : Nat),
      (insertIdxGo i acc ls = acc ∧
        ∃ mid postR, ls = mid ++ postR ∧
          (∀ x ∈ mid, neutralLine x = true) ∧
          (postR = [] ∨ ∃ b t, postR = b :: t ∧ breakLine b = true ∧
            importishLine b = false)) ∨
      (∃ pre lastL mid postR, ls = pre ++ lastL :: (mid ++ postR) ∧
        insertIdxGo i acc ls = i + pre.length + 1 ∧ importishLine lastL = true ∧
        (∀ x ∈ pre, importishLine x = true ∨ breakLine x = false) ∧
        (∀ x ∈ mid, neutralLine x = true) ∧
        (postR = [] ∨ ∃ b t, postR = b :: t ∧ breakLine b = true ∧
          importishLine b = false)) := by
  intro ls
  induction ls with
  | nil =>
    intro i acc
    left
    exact ⟨rfl, [], [], by simp, by simp, Or.inl rfl⟩
  | cons l rest ih =>
    intro i acc
    by_cases him : importishLine l = true
    · have hgo : insertIdxGo i acc (l :: rest) = insertIdxGo (i + 1) (i + 1) rest := by
        simp [insertIdxGo, him]
      rcases ih (i + 1) (i + 1) with ⟨h, mid, postR, hsp, hmid, htail⟩ |
        ⟨pre, lastL, mid, postR, hsp, hval, hlast, hpre, hmid, htail⟩
      · right
        refine ⟨[], l, mid, postR, by simp [hsp], ?_, him, by simp, hmid, htail⟩
        rw [hgo, h]
        simp
      · right
        refine ⟨l :: pre, lastL, mid, postR, by simp [hsp], ?_, hlast, ?_, hmid, htail⟩
        · rw [hgo, hval]
          simp only [List.length_cons]
          omega
        · intro x hx
          rcases List.mem_cons.mp hx with hx | hx
          · left; rw [hx]; exact him
          · exact hpre x hx
    · by_cases hbr : breakLine l = true
      · left
        refine ⟨by simp [insertIdxGo, him, hbr], [], l :: rest, by simp, by simp,
          Or.inr ⟨l, rest, rfl, hbr, Bool.eq_false_iff.mpr him⟩⟩
      · have hgo : insertIdxGo i acc (l :: rest) = insertIdxGo (i + 1) acc rest := by
          simp [insertIdxGo, him, hbr]
        have hneut : neutralLine l = true := by
          have h1 : importishLine l = false := Bool.eq_false_iff.mpr him
          have h2 : breakLine l = false := Bool.eq_false_iff.mpr hbr
          simp [neutralLine, h1, h2]
        rcases ih (i + 1) acc with ⟨h, mid, postR, hsp, hmid, htail⟩ |
          ⟨pre, lastL, mid, postR, hsp, hval, hlast, hpre, hmid, htail⟩
        · left
          refine ⟨by rw [hgo, h], l :: mid, postR, by simp [hsp], ?_, htail⟩
          intro x hx
          rcases List.mem_cons.mp hx with hx | hx
          · rw [hx]; exact hneut
          · exact hmid x hx
        · right
          refine ⟨l :: pre, lastL, mid, postR, by simp [hsp], ?_, hlast, ?_, hmid, htail⟩
          · rw [hgo, hval]
            simp only [List.length_cons]
            omega
          · intro x hx
            rcases List.mem_cons.mp hx with hx | hx
            · right; rw [hx]; exact Bool.eq_false_iff.mpr hbr
            · exact hpre x hx

theorem injectCsv_placement (m : List Char) (rows : List PyRow) :
    ∃ pre mid postR,
      importIoLine :: ((splitNl (reSub csvRepl m)).filter fun l => !(stripL l == importIoLine))
        = pre ++ (mid ++ postR) ∧
      injectCsv m rows = List.intercalate "\n".toList (pre ++ csvVarLine rows :: (mid ++ postR)) ∧
      pre ≠ [] ∧
      (∃ pre0 lastL, pre = pre0 ++ [lastL] ∧ importishLine lastL = true) ∧
      (∀ x ∈ pre, importishLine x = true ∨ stripL x = [] ∨
        "#".toList.isPrefixOf (stripL x) = true) ∧
      (∀ x ∈ mid, importishLine x = false ∧ breakLine x = false) ∧
      (postR = [] ∨ ∃ b t, postR = b :: t ∧ breakLine b = true ∧
        importishLine b = false) := by
  have him : importishLine importIoLine = true := by decide
  rcases insertIdxGo_spec
      (importIoLine :: ((splitNl (reSub csvRepl m)).filter fun l => !(stripL l == importIoLine)))
      0 0 with ⟨h, _, _, _, _, _⟩ |
    ⟨pre, lastL, mid, postR, hsp, hval, hlast, hpre, hmid, htail⟩
  · exfalso
    have hgo : insertIdxGo 0 0
        (importIoLine :: ((splitNl (reSub csvRepl m)).filter fun l => !(stripL l == importIoLine)))
        = insertIdxGo 1 1 ((splitNl (reSub csvRepl m)).filter fun l => !(stripL l == importIoLine)) := by
      simp [insertIdxGo, him]
    rcases insertIdxGo_spec
        ((splitNl (reSub csvRepl m)).filter fun l => !(stripL l == importIoLine)) 1 1
      with ⟨h2, _, _, _, _, _⟩ | ⟨_, _, _, _, _, h2, _, _, _, _⟩
    · rw [hgo, h2] at h
      omega
    · rw [hgo, h2] at h
      omega
  · refine ⟨pre ++ [lastL], mid, postR, ?_, ?_, by simp,
      ⟨pre, lastL, rfl, hlast⟩, ?_, ?_, htail⟩
    · rw [hsp]
      simp
    · have hidx : insertIdx
          (importIoLine :: ((splitNl (reSub csvRepl m)).filter fun l => !(stripL l == importIoLine)))
          = pre.length + 1 := by
        unfold insertIdx
        rw [hval]
        omega
      simp only [injectCsv, insertAt]
      rw [hidx, hsp]
      have hre : pre ++ lastL :: (mid ++ postR) = (pre ++ [lastL]) ++ (mid ++ postR) := by simp
      rw [hre]
      have hlen : pre.length + 1 = (pre ++ [lastL]).length := by simp
      rw [hlen, List.take_left, List.drop_left]
    · intro x hx
      rcases List.mem_append.mp hx with hx | hx
      · rcases hpre x hx with h | h
        · left; exact h
        · have h2 : (stripL x).isEmpty = true ∨ ("#".toList.isPrefixOf (stripL x)) = true := by
            cases hE : (stripL x).isEmpty with
            | true => exact Or.inl rfl
            | false =>
              cases hP : "#".toList.isPrefixOf (stripL x) with
              | true => exact Or.inr rfl
              | false =>
                exfalso
                unfold breakLine at h
                rw [hE, hP] at h
                simp at h
          rcases h2 with h2 | h2
          · right; left; exact List.isEmpty_iff.mp h2
          · right; right; exact h2
      · left
        have hx2 : x = lastL := by simpa using hx
        rw [hx2]
        exact hlast
    · intro x hx
      have hn := hmid x hx
      have h1 : importishLine x = false := by
        cases hI : importishLine x with
        | false => rfl
        | true => rw [neutralLine, hI] at hn; simp at hn
      have h2 : breakLine x = false := by
        cases hB : breakLine x with
        | false => rfl
        | true => rw [neutralLine, hB] at hn; simp at hn
      exact ⟨h1, h2⟩
set_option maxRecDepth 100000 in
/--
Claim C2 counterexample, two parts at concrete inputs.  First, a single
uniform row whose cell value contains a line break serializes to a CSV
text of 3 line terminators, not N+1 = 2: `csv` quotes the cell but the
physical line count still grows.  Second, for the snippet
`pd.read_csv('pd.read_csv('q.csv')')` the rewritten program still
contains a quoted named-file `pd.read_csv` call: the substitution scans
the original text only, and the replacement spliced between the outer
quotes recreates a filename-style call, so the rewritten program does
reference a filename.
-/
theorem claim_C2_counterexample :
    countOcc "\r\n".toList (csvSerialize [[("a".toList, "x\r\ny".toList)]]) ≠
      ([[("a".toList, "x\r\ny".toList)]] : List PyRow).length + 1 ∧
    hasMatch (pyRewrite (some "pd.read_csv('pd.read_csv('q.csv')')".toList)
      (some [[("a".toList, "1".toList)]]) none none) = true := by
  constructor
  · decide
  · decide

/--
Claim C2 amended.  (1) For tabular data with N > 0 uniform rows whose
cells contain no CR/LF characters, the serialized CSV text has exactly
N+1 line terminators (header plus one per row); (2) empty data yields
the empty body; (3) a snippet with no match anywhere is unchanged by the
substitution step; (4) in any snippet `pre ++ call ++ post` whose prefix
contains no `pd.read_csv` text, a bare named-file call over a quote-free
filename is replaced by the in-memory form and rewriting continues on
`post`; (5) likewise when the call carries extra `)`-free keyword
arguments after the filename; (6) a call already in the in-memory form
is never matched, and (7) the replacement text itself contains no match,
so the substitution never rescans what it has produced; (8) the
`csv_data_string` literal is inserted immediately after the last
leading import line: the prefix before it ends in an import/from line
and consists only of import/from lines, blanks and comments; every line
between the insertion point and the first following code line is a
non-import blank or comment; (9) the full Python rewrite path applies
exactly this injection to the show-rewritten program whenever tabular
data is present and non-empty.
-/
theorem claim_C2_amended :
    (∀ (r0 : PyRow) (rest : List PyRow),
      (∀ r ∈ r0 :: rest, ∀ kv ∈ r,
        (∀ ch ∈ kv.1, ch ≠ '\r' ∧ ch ≠ '\n') ∧ (∀ ch ∈ kv.2, ch ≠ '\r' ∧ ch ≠ '\n')) →
      countOcc "\r\n".toList (csvSerialize (r0 :: rest)) = (r0 :: rest).length + 1) ∧
    csvSerialize [] = [] ∧
    (∀ code, hasMatch code = false → reSub csvRepl code = code) ∧
    (∀ pre fname post, containsSub "pd.read_csv".toList pre = false →
      (∀ ch ∈ fname, isQuoteCh ch = false) →
      reSub csvRepl (pre ++ "pd.read_csv('".toList ++ fname ++ "')".toList ++ post) =
        pre ++ csvRepl ++ reSub csvRepl post) ∧
    (∀ pre fname args post, containsSub "pd.read_csv".toList pre = false →
      (∀ ch ∈ fname, isQuoteCh ch = false) →
      (∀ ch ∈ args, ch ≠ ')') →
      reSub csvRepl
          (pre ++ "pd.read_csv('".toList ++ fname ++ "',".toList ++ args ++ ")".toList ++ post) =
        pre ++ csvRepl ++ reSub csvRepl post) ∧
    (∀ post, matchRest (csvRepl ++ post) = none) ∧
    hasMatch csvRepl = false ∧
    (∀ m rows, ∃ pre mid postR,
      importIoLine :: ((splitNl (reSub csvRepl m)).filter fun l => !(stripL l == importIoLine))
        = pre ++ (mid ++ postR) ∧
      injectCsv m rows = List.intercalate "\n".toList (pre ++ csvVarLine rows :: (mid ++ postR)) ∧
      pre ≠ [] ∧
      (∃ pre0 lastL, pre = pre0 ++ [lastL] ∧ importishLine lastL = true) ∧
      (∀ x ∈ pre, importishLine x = true ∨ stripL x = [] ∨
        "#".toList.isPrefixOf (stripL x) = true) ∧
      (∀ x ∈ mid, importishLine x = false ∧ breakLine x = false) ∧
      (postR = [] ∨ ∃ b t, postR = b :: t ∧ breakLine b = true ∧
        importishLine b = false)) ∧
    (∀ code rows imgBg chartBg, rows ≠ ([] : List PyRow) →
      pyRewrite code (some rows) imgBg chartBg =
        injectCsv (rewriteShow (codeOrEmpty code) imgBg chartBg) rows) := by
  refine ⟨csvSerialize_count, rfl, reSub_no_match csvRepl, reSub_call_ctx,
    reSub_call_kwargs_ctx, matchRest_inmemory, by decide, injectCsv_placement, ?_⟩
  intro code rows imgBg chartBg h
  simp only [pyRewrite]
  rw [if_neg h]

theorem claim_C2_amended_witness :
    countOcc "\r\n".toList
        (csvSerialize [[("a".toList, "1".toList)], [("a".toList, "2".toList)]]) = 3 ∧
    reSub csvRepl "x = 1\npd.read_csv('data.csv', sep=';')\nplt.plot(df)".toList =
      "x = 1\n".toList ++ csvRepl ++ reSub csvRepl "\nplt.plot(df)".toList := by
  constructor
  · have h := claim_C2_amended.1 [("a".toList, "1".toList)] [[("a".toList, "2".toList)]]
      (by decide)
    simpa using h
  · have h := claim_C2_amended.2.2.2.2.1 "x = 1\n".toList "data.csv".toList
      " sep=';'".toList "\nplt.plot(df)".toList (by decide) (by decide) (by decide)
    have hsh : "x = 1\n".toList ++ "pd.read_csv('".toList ++ "data.csv".toList ++
        "',".toList ++ " sep=';'".toList ++ ")".toList ++ "\nplt.plot(df)".toList =
        "x = 1\npd.read_csv('data.csv', sep=';')\nplt.plot(df)".toList := by decide
    rw [hsh] at h
    exact h
